import Mathlib

/-!
Verification of the connection-registry consistency layer of the admin-api
backend: field cipher (app/core/crypto.py), slug resolver (app/utils/slug.py),
cache layer (app/core/cache.py), registry endpoints
(app/api/v1/endpoints/databases.py) and backup generator (app/utils/backup.py).

Bytes are modelled as `Nat` values below 256; byte strings as `List Nat`.
Python `str` values are modelled as Lean `String` (UTF-8 encoding is made
explicit where the code calls `.encode("utf-8")`).
-/

namespace AdminApi

/-! ### UTF-8 encoding (model of Python `str.encode("utf-8")`) -/

/-- UTF-8 encoding of a single Unicode code point. -/
def utf8EncodeCp (n : Nat) : List Nat :=
  if n < 128 then [n]
  else if n < 2048 then [192 + n / 64, 128 + n % 64]
  else if n < 65536 then [224 + n / 4096, 128 + n / 64 % 64, 128 + n % 64]
  else [240 + n / 262144, 128 + n / 4096 % 64, 128 + n / 64 % 64, 128 + n % 64]

/-- UTF-8 encoding of a string, as the Python `"...".encode("utf-8")`. -/
def utf8Encode (s : String) : List Nat :=
  (s.data.map (fun c => utf8EncodeCp c.toNat)).flatten

/-- Continuation for a two-byte UTF-8 sequence (leader `b`): read one
continuation byte, decode the rest with `k`. -/
def decodeCont2 (k : List Nat → Option (List Char)) (b : Nat) : List Nat → Option (List Char)
  | b1 :: rest1 => (k rest1).map (fun cs => Char.ofNat ((b - 192) * 64 + (b1 - 128)) :: cs)
  | [] => none

/-- Continuation for a three-byte UTF-8 sequence. -/
def decodeCont3 (k : List Nat → Option (List Char)) (b : Nat) : List Nat → Option (List Char)
  | b1 :: b2 :: rest2 =>
    (k rest2).map (fun cs => Char.ofNat ((b - 224) * 4096 + (b1 - 128) * 64 + (b2 - 128)) :: cs)
  | _ => none

/-- Continuation for a four-byte UTF-8 sequence. -/
def decodeCont4 (k : List Nat → Option (List Char)) (b : Nat) : List Nat → Option (List Char)
  | b1 :: b2 :: b3 :: rest3 =>
    (k rest3).map
      (fun cs =>
        Char.ofNat ((b - 240) * 262144 + (b1 - 128) * 4096 + (b2 - 128) * 64 + (b3 - 128)) :: cs)
  | _ => none

/-- UTF-8 decoding worker, structurally recursive on a fuel bound (one unit of
fuel per decoded character; a byte count is always enough fuel). -/
def utf8DecodeFuel : Nat → List Nat → Option (List Char)
  | _, [] => some []
  | 0, _ :: _ => none
  | fuel + 1, b :: rest =>
    if b < 128 then (utf8DecodeFuel fuel rest).map (fun cs => Char.ofNat b :: cs)
    else if b < 192 then none
    else if b < 224 then decodeCont2 (utf8DecodeFuel fuel) b rest
    else if b < 240 then decodeCont3 (utf8DecodeFuel fuel) b rest
    else decodeCont4 (utf8DecodeFuel fuel) b rest

/-- UTF-8 decoding, as the Python `bytes.decode("utf-8")` (returns `none` on a
truncated sequence; lenient about continuation-byte ranges, which does not
matter on well-formed input). -/
def utf8Decode (l : List Nat) : Option (List Char) :=
  utf8DecodeFuel l.length l

/-! ### PKCS#7 padding (block size 128 bits = 16 bytes) -/

/-- Model of `padding.PKCS7(128).padder()`: append `k` copies of `k` where
`k = 16 - len % 16` (always between 1 and 16). -/
def pkcs7Pad (data : List Nat) : List Nat :=
  data ++ List.replicate (16 - data.length % 16) (16 - data.length % 16)

/-- Model of `padding.PKCS7(128).unpadder()`: requires a nonempty multiple of the block
size whose last byte `k` is between 1 and 16 and whose last `k` bytes all equal
`k`; strips them. Any violation raises in Python, modelled as `none`. -/
def pkcs7Unpad (data : List Nat) : Option (List Nat) :=
  if data.length % 16 ≠ 0 ∨ data.length = 0 then none
  else
    let n := data.getLastD 0
    if n = 0 ∨ 16 < n then none
    else if (data.drop (data.length - n)).all (fun x => x = n) then
      some (data.take (data.length - n))
    else none

/-! ### Splitting a byte string into 16-byte blocks -/

/-- Chunking worker, structurally recursive on a fuel bound (the input length
is always enough fuel, since every step consumes at least one byte). -/
def toBlocksFuel : Nat → List Nat → List (List Nat)
  | _, [] => []
  | 0, _ :: _ => []
  | fuel + 1, l => l.take 16 :: toBlocksFuel fuel (l.drop 16)

/-- Split a byte string into consecutive 16-byte blocks (the last block may be
shorter if the length is not a multiple of 16). -/
def toBlocks (l : List Nat) : List (List Nat) :=
  toBlocksFuel l.length l

/-! ### CBC mode over an abstract 16-byte block cipher

The Python code uses `algorithms.AES(ENCRYPTION_KEY)` from the external
`cryptography` library with the fixed 32-byte key; the AES core itself is not
part of this repository, so the block transformation is abstracted as a pair of
functions on 16-byte blocks (`GoodCipher` states exactly the permutation
properties AES provides). Everything else (CBC chaining, padding, base64, the
empty-string guards) is translated from `app/core/crypto.py`. -/

structure BlockCipher where
  enc : List Nat → List Nat
  dec : List Nat → List Nat

/-- The block transformation is a length- and range-preserving permutation of
16-byte blocks, inverted by `dec` — true of AES-256 with any fixed key. -/
def GoodCipher (bc : BlockCipher) : Prop :=
  ∀ b : List Nat, b.length = 16 → (∀ x ∈ b, x < 256) →
    bc.dec (bc.enc b) = b ∧ (bc.enc b).length = 16 ∧ ∀ x ∈ bc.enc b, x < 256

def xorBlock (a b : List Nat) : List Nat :=
  List.zipWith (fun x y => x ^^^ y) a b

def cbcEncrypt (bc : BlockCipher) (iv : List Nat) : List (List Nat) → List (List Nat)
  | [] => []
  | b :: bs => bc.enc (xorBlock iv b) :: cbcEncrypt bc (bc.enc (xorBlock iv b)) bs

def cbcDecrypt (bc : BlockCipher) (iv : List Nat) : List (List Nat) → List (List Nat)
  | [] => []
  | c :: cs => xorBlock iv (bc.dec c) :: cbcDecrypt bc c cs

/-- Model of `ENCRYPTION_IV = b"1234567890123456"` from `app/core/crypto.py`. -/
def ENCRYPTION_IV : List Nat :=
  [49, 50, 51, 52, 53, 54, 55, 56, 57, 48, 49, 50, 51, 52, 53, 54]

/-! ### Base64 (model of Python `base64.b64encode` / `base64.b64decode`) -/

def b64Char (n : Nat) : Char :=
  if n < 26 then Char.ofNat (65 + n)
  else if n < 52 then Char.ofNat (97 + (n - 26))
  else if n < 62 then Char.ofNat (48 + (n - 52))
  else if n = 62 then Char.ofNat 43
  else Char.ofNat 47

def b64Value (c : Char) : Option Nat :=
  if 65 ≤ c.toNat ∧ c.toNat ≤ 90 then some (c.toNat - 65)
  else if 97 ≤ c.toNat ∧ c.toNat ≤ 122 then some (c.toNat - 97 + 26)
  else if 48 ≤ c.toNat ∧ c.toNat ≤ 57 then some (c.toNat - 48 + 52)
  else if c.toNat = 43 then some 62
  else if c.toNat = 47 then some 63
  else none

/-- The padding character of base64 (ASCII 61). -/
def eqChar : Char := Char.ofNat 61

def b64EncodeBytes : List Nat → List Char
  | [] => []
  | [a] => [b64Char (a / 4), b64Char (a % 4 * 16), eqChar, eqChar]
  | [a, b] => [b64Char (a / 4), b64Char (a % 4 * 16 + b / 16), b64Char (b % 16 * 4), eqChar]
  | a :: b :: c :: rest =>
    b64Char (a / 4) :: b64Char (a % 4 * 16 + b / 16) :: b64Char (b % 16 * 4 + c / 64) ::
      b64Char (c % 64) :: b64EncodeBytes rest

/-- Base64 decoding of well-formed (4-aligned, tail-padded) input; Python is
additionally lenient about junk characters, which no claim depends on. -/
def b64DecodeChars : List Char → Option (List Nat)
  | [] => some []
  | c1 :: c2 :: c3 :: c4 :: rest =>
    match b64Value c1, b64Value c2 with
    | some s1, some s2 =>
      if c3 = eqChar ∧ c4 = eqChar ∧ rest = [] then some [s1 * 4 + s2 / 16]
      else
        match b64Value c3 with
        | some s3 =>
          if c4 = eqChar ∧ rest = [] then some [s1 * 4 + s2 / 16, s2 % 16 * 16 + s3 / 4]
          else
            match b64Value c4, b64DecodeChars rest with
            | some s4, some bs =>
              some ((s1 * 4 + s2 / 16) :: (s2 % 16 * 16 + s3 / 4) :: (s3 % 4 * 64 + s4) :: bs)
            | _, _ => none
        | none => none
    | _, _ => none
  | _ => none

/-! ### The field cipher (app/core/crypto.py) -/

/-- Body of `encrypt_connection_string` after the empty-string guard:
pad, CBC-encrypt, base64-encode. -/
def encryptBytes (bc : BlockCipher) (p : List Nat) : List Char :=
  b64EncodeBytes ((cbcEncrypt bc ENCRYPTION_IV (toBlocks (pkcs7Pad p))).flatten)

/-- Model of `encrypt_connection_string` from `app/core/crypto.py`: empty input maps to
the empty string; otherwise UTF-8 encode, PKCS7-pad, AES-256-CBC with the fixed
key and IV, base64. -/
def encrypt_connection_string (bc : BlockCipher) (plaintext : String) : String :=
  if plaintext = "" then "" else String.mk (encryptBytes bc (utf8Encode plaintext))

/-- Model of `decrypt_connection_string` from `app/core/crypto.py`: empty input maps to
`none`; otherwise base64-decode, CBC-decrypt (a ciphertext that is not a
multiple of the block size raises, hence `none`), strip PKCS7 padding, UTF-8
decode; every failure is caught and becomes `none`. -/
def decrypt_connection_string (bc : BlockCipher) (encrypted : String) : Option String :=
  if encrypted = "" then none
  else
    (b64DecodeChars encrypted.data).bind (fun bytes =>
      if bytes.length % 16 = 0 then
        (pkcs7Unpad ((cbcDecrypt bc ENCRYPTION_IV (toBlocks bytes)).flatten)).bind
          (fun plain => (utf8Decode plain).map String.mk)
      else none)

/-- A concrete 16-byte block permutation (the identity), used to instantiate
theorems about an arbitrary `GoodCipher` at evaluable inputs. -/
def idCipher : BlockCipher := ⟨fun b => b, fun b => b⟩

/-! ### Slug resolver (app/utils/slug.py)

`generate_slug` lowercases the name and replaces every maximal run of
characters outside `[a-z0-9]` with a single hyphen, then strips leading and
trailing hyphens (`re.sub` + `strip`). Lowercasing is modelled by
`Char.toLower` (ASCII case-folding; the character class of the regex is
ASCII-only). -/

/-- The hyphen character (ASCII 45). -/
def hyphen : Char := Char.ofNat 45

/-- Membership in the regex character class `[a-z0-9]`. -/
def isSlugChar (c : Char) : Bool :=
  (97 ≤ c.toNat && c.toNat ≤ 122) || (48 ≤ c.toNat && c.toNat ≤ 57)

/-- Worker for `re.sub(r"[^a-z0-9]+", "-", s)`, structurally recursive on a
fuel bound (the input length is always enough fuel). Each maximal run of
non-class characters becomes one hyphen. -/
def collapseFuel : Nat → List Char → List Char
  | _, [] => []
  | 0, _ :: _ => []
  | fuel + 1, c :: rest =>
    if isSlugChar c then c :: collapseFuel fuel rest
    else hyphen :: collapseFuel fuel (rest.dropWhile (fun d => !isSlugChar d))

def collapseRuns (l : List Char) : List Char :=
  collapseFuel l.length l

/-- Python `str.strip("-")`: drop hyphens from both ends. -/
def stripHyphens (l : List Char) : List Char :=
  ((l.dropWhile (fun c => c == hyphen)).reverse.dropWhile (fun c => c == hyphen)).reverse

/-- Model of `generate_slug` from `app/utils/slug.py`. -/
def generate_slug (name : String) : String :=
  String.mk (stripHyphens (collapseRuns (name.data.map Char.toLower)))

/-- Decimal digit character. -/
def digitChar (d : Nat) : Char := Char.ofNat (48 + d)

/-- Decimal rendering of a natural number (the Python `f"{counter}"`),
structurally recursive on a fuel bound (`n + 1` is always enough fuel). -/
def natDigitsFuel : Nat → Nat → List Char
  | 0, _ => []
  | fuel + 1, n =>
    if n < 10 then [digitChar n]
    else natDigitsFuel fuel (n / 10) ++ [digitChar (n % 10)]

def natRepr (n : Nat) : String := String.mk (natDigitsFuel (n + 1) n)

/-- Evaluation of a decimal digit string back to a number (used to show that
`natRepr` is injective). -/
def digitsVal (l : List Char) : Nat :=
  l.foldl (fun a c => a * 10 + (c.toNat - 48)) 0

/-- The candidate sequence tried by `generate_unique_slug`:
`base`, `base-1`, `base-2`, ... -/
def slugCandidate (base : String) : Nat → String
  | 0 => base
  | k + 1 => base ++ "-" ++ natRepr (k + 1)

/-- The `while db.query(...).first(): final_slug = f"{base_slug}-{counter}"`
loop of `generate_unique_slug`, with explicit fuel. `k` is the index of the
candidate currently under test (the Python loop enters iteration `k` with
`counter = k + 1`). -/
def uniqueSlugLoop (base : String) (existing : List String) : Nat → Nat → String
  | 0, k => slugCandidate base k
  | fuel + 1, k =>
    if slugCandidate base k ∈ existing then uniqueSlugLoop base existing fuel (k + 1)
    else slugCandidate base k

/-- Model of `generate_unique_slug` from `app/utils/slug.py`; `existing` is the list of
slugs present in storage (what `db.query(Database).filter(Database.slug == x)`
consults). The candidates are pairwise distinct, so at most
`existing.length + 1` loop iterations can hit an existing slug; that much fuel
therefore reproduces the unbounded Python loop exactly. -/
def generate_unique_slug (name : String) (existing : List String) : String :=
  uniqueSlugLoop (generate_slug name) existing (existing.length + 1) 0

/-! ### Cache layer, raw backend view (app/core/cache.py)

The Redis client and `json` serialization are external collaborators; a call
either returns a value or raises, modelled by `CacheResult`. Every cache
function wraps its body in `try/except`, logging and returning a default on
any error. -/

inductive CacheResult (α : Type) where
  | ok (val : α)
  | err (msg : String)
deriving DecidableEq

/-- The Redis operations used by `app/core/cache.py` (`decode_responses=True`,
so values are strings; `get` returns `none` for an absent key). -/
structure CacheBackend where
  get : String → CacheResult (Option String)
  setex : String → Nat → String → CacheResult Unit
  keys : String → CacheResult (List String)
  del : List String → CacheResult Unit

/-- Model of `get_cache`: `value = await client.get(key); if value: return
json.loads(value); return None`, all under `try/except` returning `None`.
`loads` is the `json.loads` parser for the expected payload type (`none`
models a raised decode error). -/
def get_cache {α : Type} (b : CacheBackend) (loads : String → Option α)
    (key : String) : Option α :=
  match b.get key with
  | .err _ => none
  | .ok none => none
  | .ok (some v) =>
    if v = "" then none
    else
      match loads v with
      | none => none
      | some x => some x

/-- Model of `set_cache`: serialize, `setex`, return `True`; any raise returns `False`.
`dumps` is `json.dumps` (`none` models a serialization error). -/
def set_cache {α : Type} (b : CacheBackend) (dumps : α → Option String)
    (key : String) (ttl : Nat) (value : α) : Bool :=
  match dumps value with
  | none => false
  | some s =>
    match b.setex key ttl s with
    | .ok _ => true
    | .err _ => false

/-- Model of `delete_cache`: delete one key, `True` on success, `False` on any raise. -/
def delete_cache (b : CacheBackend) (key : String) : Bool :=
  match b.del [key] with
  | .ok _ => true
  | .err _ => false

/-- Model of `delete_pattern`: list the keys matching the glob, delete them if any,
return `True`; any raise returns `False`. -/
def delete_pattern (b : CacheBackend) (pat : String) : Bool :=
  match b.keys pat with
  | .err _ => false
  | .ok ks =>
    if ks = [] then true
    else
      match b.del ks with
      | .ok _ => true
      | .err _ => false

/-! ### Records, views and the registry state
(app/models/database.py, app/schemas/database.py)

Timestamps are modelled as naturals (`created_at` orders records; the
`isoformat`/`strftime` renderings are abstracted to the injective decimal
rendering `natRepr`). -/

inductive DatabaseStatus where
  | active
  | inactive
deriving DecidableEq

/-- Model of `DatabaseStatus.value` (the `str`-enum payload). -/
def DatabaseStatus.value : DatabaseStatus → String
  | .active => "active"
  | .inactive => "inactive"

/-- A row of the `databases` table (`app/models/database.py`); the stored
`connection_string` is the plaintext. -/
structure DBRecord where
  id : String
  name : String
  slug : String
  «type» : String
  connection_string : String
  description : Option String
  status : DatabaseStatus
  created_at : Nat
  updated_at : Nat
deriving DecidableEq

/-- The externally visible representation (`DatabaseResponse` payload). -/
structure DBView where
  id : String
  name : String
  slug : String
  «type» : String
  connection_string : String
  description : Option String
  status : DatabaseStatus
  created_at : Nat
  updated_at : Nat
deriving DecidableEq

/-- The `db_dict` blocks of `databases.py`: every stored field verbatim except
`connection_string`, which passes through the field cipher. -/
def viewOf (bc : BlockCipher) (r : DBRecord) : DBView :=
  { id := r.id, name := r.name, slug := r.slug, «type» := r.«type»,
    connection_string := encrypt_connection_string bc r.connection_string,
    description := r.description, status := r.status,
    created_at := r.created_at, updated_at := r.updated_at }

/-- A parsed cache payload: the JSON under a `list:` key is a list of response
dicts, under an `item:` key a single response dict. (`json.dumps` of either is
a nonempty string, so a present key is always truthy at the string level.) -/
inductive CacheVal where
  | list (items : List DBView)
  | item (v : DBView)
deriving DecidableEq

/-- The state the registry endpoints operate on: the relational store (rows in
insertion order) and the cache key space. -/
structure AppState where
  store : List DBRecord
  cache : List (String × CacheVal)
deriving DecidableEq

/-- Redis `SETEX`: bind the key to the value (replacing any previous binding);
TTL expiry is not modelled (no claim depends on it). -/
def cacheSet (cache : List (String × CacheVal)) (key : String) (v : CacheVal) :
    List (String × CacheVal) :=
  (key, v) :: cache.filter (fun e => !(e.1 == key))

/-- Redis glob matching, restricted to the shapes the code uses: a literal
ending in `*` matches by prefix, anything else matches exactly. -/
def globMatch (pat key : String) : Bool :=
  if pat.data.getLast? = some (Char.ofNat 42) then
    pat.data.dropLast.isPrefixOf key.data
  else pat == key

/-- State effect of `delete_pattern`: drop every matching key. -/
def deletePatternState (cache : List (String × CacheVal)) (pat : String) :
    List (String × CacheVal) :=
  cache.filter (fun e => !(globMatch pat e.1))

/-- Model of `cache_key_database_list` from `app/core/cache.py`. -/
def cache_key_database_list (skip limit : Nat) : String :=
  "databases:list:" ++ natRepr skip ++ ":" ++ natRepr limit

/-- Model of `cache_key_database` from `app/core/cache.py`. -/
def cache_key_database (id_or_slug : String) : String :=
  "databases:item:" ++ id_or_slug

/-- Model of `invalidate_database_cache`: `delete_pattern("databases:*")`. -/
def invalidate_database_cache (cache : List (String × CacheVal)) :
    List (String × CacheVal) :=
  deletePatternState cache "databases:*"

/-! ### Lookup by id or slug (app/utils/slug.py) -/

def isHexDigit (c : Char) : Bool :=
  (48 ≤ c.toNat && c.toNat ≤ 57) || (97 ≤ c.toNat && c.toNat ≤ 102)
    || (65 ≤ c.toNat && c.toNat ≤ 70)

/-- Python `UUID(id_or_slug)` parse test, simplified to its core (strip
hyphens, require 32 hex digits; the URN/braced forms accepted by CPython are
irrelevant here). -/
def parsesAsUUID (s : String) : Bool :=
  let h := s.data.filter (fun c => !(c == hyphen))
  h.length == 32 && h.all isHexDigit

/-- Model of `get_database_by_id_or_slug`: a string that parses as a UUID is looked up
by id, anything else by slug; `none` models the 404 `HTTPException`. -/
def get_database_by_id_or_slug (id_or_slug : String) (store : List DBRecord) :
    Option DBRecord :=
  if parsesAsUUID id_or_slug then store.find? (fun r => r.id == id_or_slug)
  else store.find? (fun r => r.slug == id_or_slug)

/-! ### The registry endpoints (app/api/v1/endpoints/databases.py)

Modelled as pure state transformers over `AppState`; an `Except.error` is an
HTTP error response (404/409) or an uncaught exception. The cache is the
structured (post-`json.loads`) view; the raw fail-open behaviour is the
`CacheBackend` layer above. -/

/-- The cache-miss path of `get_databases`: page the store
(`offset(skip).limit(limit)`), encrypt each connection string, write the list
through the cache, report MISS. -/
def listMiss (bc : BlockCipher) (skip limit : Nat) (s : AppState) :
    List DBView × String × AppState :=
  let result := ((s.store.drop skip).take limit).map (viewOf bc)
  (result, "MISS",
    ⟨s.store, cacheSet s.cache (cache_key_database_list skip limit) (.list result)⟩)

/-- Model of `GET /databases/` (`get_databases`): a truthy cached value is served as a
HIT without touching storage or the cipher; a falsy one (absent key, or a
cached empty list) falls through to the miss path. A cached value of the wrong
shape would make `DatabaseResponse(**item)` raise. -/
def get_databases (bc : BlockCipher) (skip limit : Nat) (s : AppState) :
    Except String (List DBView × String × AppState) :=
  match List.lookup (cache_key_database_list skip limit) s.cache with
  | some (.list items) =>
    if items = [] then .ok (listMiss bc skip limit s)
    else .ok (items, "HIT", s)
  | some (.item _) => .error "TypeError: cached value has the wrong shape"
  | none => .ok (listMiss bc skip limit s)

/-- The cache-miss path of `get_database`: resolve by id or slug (404 if
absent), encrypt, write through, report MISS. -/
def itemMiss (bc : BlockCipher) (id_or_slug : String) (s : AppState) :
    Except String (DBView × String × AppState) :=
  match get_database_by_id_or_slug id_or_slug s.store with
  | none => .error "404: database not found"
  | some r =>
    .ok (viewOf bc r, "MISS",
      ⟨s.store, cacheSet s.cache (cache_key_database id_or_slug) (.item (viewOf bc r))⟩)

/-- Model of `GET /databases/{id_or_slug}` (`get_database`). -/
def get_database (bc : BlockCipher) (id_or_slug : String) (s : AppState) :
    Except String (DBView × String × AppState) :=
  match List.lookup (cache_key_database id_or_slug) s.cache with
  | some (.item v) => .ok (v, "HIT", s)
  | some (.list items) =>
    if items = [] then itemMiss bc id_or_slug s
    else .error "TypeError: cached value has the wrong shape"
  | none => itemMiss bc id_or_slug s

/-- Model of `DatabaseCreate` (`app/schemas/database.py`). -/
structure DatabaseCreate where
  name : String
  «type» : String
  connection_string : String
  description : Option String
  status : DatabaseStatus
deriving DecidableEq

/-- Model of `POST /databases/` (`create_database`): resolve a unique slug, double-check
it (409 on a collision, unreachable sequentially), insert the row with the
plaintext secret, invalidate the whole cache namespace, return the encrypted
view. `newId` is the generated UUID, `now` the insertion timestamp. -/
def create_database (bc : BlockCipher) (inp : DatabaseCreate) (newId : String)
    (now : Nat) (s : AppState) : Except String (DBView × AppState) :=
  let slug := generate_unique_slug inp.name (s.store.map (fun r => r.slug))
  if slug ∈ s.store.map (fun r => r.slug) then
    .error "409: database with this slug already exists"
  else
    let r : DBRecord :=
      { id := newId, name := inp.name, slug := slug, «type» := inp.«type»,
        connection_string := inp.connection_string, description := inp.description,
        status := inp.status, created_at := now, updated_at := now }
    .ok (viewOf bc r, ⟨s.store ++ [r], invalidate_database_cache s.cache⟩)

/-- Model of `DatabaseUpdate` (`app/schemas/database.py`): every field optional. The
outer `Option` is the pydantic fields-set marker (`none` = absent from the
payload, excluded by `model_dump(exclude_unset=True)`); the inner `Option` is
the JSON value itself, so `some none` is an explicit `null`. -/
structure DatabaseUpdate where
  name : Option (Option String)
  «type» : Option (Option String)
  connection_string : Option (Option String)
  description : Option (Option String)
  status : Option (Option DatabaseStatus)
deriving DecidableEq

/-- The in-memory ORM object during `update_database`: before the commit, any
column attribute can transiently hold `null` (`setattr(database, field,
None)`). -/
structure DBObj where
  name : Option String
  «type» : Option String
  connection_string : Option String
  description : Option String
  status : Option DatabaseStatus
deriving DecidableEq

def DBObj.ofRecord (r : DBRecord) : DBObj :=
  ⟨some r.name, some r.«type», some r.connection_string, r.description, some r.status⟩

/-- Model of `update_data = database_in.model_dump(exclude_unset=True)` followed by
`for field, value in update_data.items(): setattr(database, field, value)`:
each field present in the payload overwrites the attribute with its JSON value
(possibly `null`); absent fields are not touched. -/
def apply_update_fields (obj : DBObj) (u : DatabaseUpdate) : DBObj :=
  { name := match u.name with | none => obj.name | some v => v,
    «type» := match u.«type» with | none => obj.«type» | some v => v,
    connection_string :=
      match u.connection_string with | none => obj.connection_string | some v => v,
    description := match u.description with | none => obj.description | some v => v,
    status := match u.status with | none => obj.status | some v => v }

/-- Model of `db.commit()` after the setattr loop. The flush only emits an UPDATE
when some attribute differs from its loaded value: a payload with no net
change (an empty PATCH body, or every field set to its current value)
produces no setattr-visible change, `db.commit()` emits no UPDATE,
`onupdate=func.now()` never fires, and the row — `updated_at` included — is
returned unchanged. When an UPDATE is emitted, the NOT NULL constraints on
`name`, `type`, `connection_string` and `status` reject an explicit null
(IntegrityError, modelled as `none`), `description` is nullable, and
`updated_at` is refreshed by the `onupdate=func.now()` column option
(`app/models/database.py`). -/
def commitUpdate (r : DBRecord) (u : DatabaseUpdate) (now : Nat) : Option DBRecord :=
  let obj := apply_update_fields (DBObj.ofRecord r) u
  if obj = DBObj.ofRecord r then some r
  else
    match obj.name, obj.«type», obj.connection_string, obj.status with
    | some n, some t, some cs, some st =>
      some { r with
             name := n,
             «type» := t,
             connection_string := cs,
             description := obj.description,
             status := st,
             updated_at := now }
    | _, _, _, _ => none

/-- Model of `PATCH /databases/{id_or_slug}` (`update_database`). -/
def update_database (bc : BlockCipher) (id_or_slug : String) (u : DatabaseUpdate)
    (now : Nat) (s : AppState) : Except String (DBView × AppState) :=
  match get_database_by_id_or_slug id_or_slug s.store with
  | none => .error "404: database not found"
  | some r =>
    match commitUpdate r u now with
    | none => .error "IntegrityError: null value in a non-nullable column"
    | some r2 =>
      .ok (viewOf bc r2,
        ⟨s.store.map (fun q => if q.id == r.id then r2 else q),
          invalidate_database_cache s.cache⟩)

/-- Model of `DELETE /databases/{id_or_slug}` (`delete_database`). -/
def delete_database (id_or_slug : String) (s : AppState) : Except String AppState :=
  match get_database_by_id_or_slug id_or_slug s.store with
  | none => .error "404: database not found"
  | some r =>
    .ok ⟨s.store.filter (fun q => !(q.id == r.id)), invalidate_database_cache s.cache⟩

/-! ### Connectivity prober (`test_database_connection` in databases.py) -/

/-- What the external database does when the endpoint opens the trial
connection and runs `SELECT 1`: success, or an exception whose message is
`errText`. `latency` is the elapsed wall-clock measurement in milliseconds. -/
inductive ProbeOutcome where
  | success (latency : Nat)
  | failure (errText : String) (latency : Nat)
deriving DecidableEq

structure DatabaseTestConnection where
  «type» : String
  connection_string : String
deriving DecidableEq

structure DatabaseTestConnectionResponse where
  success : Bool
  message : String
  latency_ms : Option Nat
deriving DecidableEq

/-- Python substring test `needle in hay` on character lists. -/
def listContainsSub : List Char → List Char → Bool
  | [], needle => needle.isEmpty
  | c :: rest, needle => needle.isPrefixOf (c :: rest) || listContainsSub rest needle

def strContains (hay needle : String) : Bool :=
  listContainsSub hay.data needle.data

def strLower (s : String) : String := String.mk (s.data.map Char.toLower)

/-- Model of `POST /databases/ping` (`test_database_connection`): every outcome is
returned as a structured response; on failure the message is cleaned up by
case-insensitive substring matching in the order timeout, authentication,
host; anything unmatched passes through the raw error text. -/
def test_database_connection (conn : DatabaseTestConnection)
    (outcome : ProbeOutcome) : DatabaseTestConnectionResponse :=
  match outcome with
  | .success latency =>
    { success := true,
      message := "Connection successful to " ++ conn.«type» ++ " database",
      latency_ms := some latency }
  | .failure e latency =>
    let el := strLower e
    let error_message :=
      if strContains el "timeout" then "Connection timeout (10s exceeded)"
      else if strContains el "authentication" || strContains el "password" then
        "Authentication failed - check credentials"
      else if strContains el "host" || strContains el "connection refused" then
        "Cannot reach database host - check host and port"
      else e
    { success := false,
      message := "Connection failed: " ++ error_message,
      latency_ms := some latency }

/-! ### Backup generator (app/utils/backup.py) -/

/-- The single-quote character (ASCII 39). -/
def squote : Char := Char.ofNat 39

def squoteStr : String := String.mk [squote]

/-- Model of `escape_sql_string`: `NULL` for `None`, otherwise double every single
quote and wrap in single quotes. -/
def escape_sql_string : Option String → String
  | none => "NULL"
  | some v =>
    squoteStr
      ++ String.mk ((v.data.map (fun c => if c == squote then [squote, squote] else [c])).flatten)
      ++ squoteStr

/-- The f-string wrapping used for id, status and timestamps: the value
surrounded by single quotes verbatim, without escaping. -/
def quoteRaw (s : String) : String := squoteStr ++ s ++ squoteStr

/-- Model of `ORDER BY created_at` (ascending). -/
def sortByCreated (db : List DBRecord) : List DBRecord :=
  List.insertionSort (fun a b => a.created_at ≤ b.created_at) db

/-- The fixed header block of the generated script (the `sql_lines` literal up
to and including the `DO $$` enum guard). -/
def backupHeaderLines (databases : List DBRecord) : List String :=
  [ "-- ===================================================================",
    "-- Database Connections Backup",
    "-- Generated: "
      ++ (match databases with | [] => "N/A" | d :: _ => natRepr d.created_at),
    "-- Total records: " ++ natRepr databases.length,
    "-- ===================================================================",
    "",
    "-- Ensure database_status enum exists",
    "DO $$ BEGIN",
    "    CREATE TYPE database_status AS ENUM (" ++ quoteRaw "active" ++ ", "
      ++ quoteRaw "inactive" ++ ");",
    "EXCEPTION",
    "    WHEN duplicate_object THEN null;",
    "END $$;",
    "" ]

def backupFooterLines (databases : List DBRecord) : List String :=
  [ "-- ===================================================================",
    "-- Backup completed successfully",
    "-- Total records processed: " ++ natRepr databases.length,
    "-- ===================================================================" ]

/-- The per-record `sql_lines.extend([...])` block of `generate_backup_sql`,
verbatim. -/
def backupRecordLines (d : DBRecord) : List String :=
  [ "-- Backup record: " ++ d.name ++ " (" ++ d.slug ++ ")",
    "INSERT INTO databases (",
    "    id, name, slug, type, connection_string, description, status, created_at, updated_at",
    ") VALUES (",
    "    " ++ quoteRaw d.id ++ "::uuid,",
    "    " ++ escape_sql_string (some d.name) ++ ",",
    "    " ++ escape_sql_string (some d.slug) ++ ",",
    "    " ++ escape_sql_string (some d.«type») ++ ",",
    "    " ++ escape_sql_string (some d.connection_string) ++ ",",
    "    " ++ escape_sql_string d.description ++ ",",
    "    " ++ quoteRaw d.status.value ++ "::database_status,",
    "    " ++ quoteRaw (natRepr d.created_at) ++ "::timestamp with time zone,",
    "    " ++ quoteRaw (natRepr d.updated_at) ++ "::timestamp with time zone",
    ")",
    "ON CONFLICT (id) DO UPDATE SET",
    "    name = " ++ escape_sql_string (some d.name) ++ ",",
    "    slug = " ++ escape_sql_string (some d.slug) ++ ",",
    "    type = " ++ escape_sql_string (some d.«type») ++ ",",
    "    connection_string = " ++ escape_sql_string (some d.connection_string) ++ ",",
    "    description = " ++ escape_sql_string d.description ++ ",",
    "    status = " ++ quoteRaw d.status.value ++ "::database_status,",
    "    updated_at = " ++ quoteRaw (natRepr d.updated_at)
      ++ "::timestamp with time zone;",
    "" ]

/-- Model of `generate_backup_sql`: load all records ordered by `created_at`, emit the
header, one upsert block per record, and the footer, joined by newlines; an
empty table short-circuits to a comment. -/
def generate_backup_sql (db : List DBRecord) : String :=
  let databases := sortByCreated db
  if databases = [] then "-- No databases to backup\n"
  else
    String.intercalate "\n"
      (backupHeaderLines databases
        ++ (databases.map backupRecordLines).flatten
        ++ backupFooterLines databases)

/-- Structured description of one upsert statement (used to state what the
rendered text contains: which columns the insert lists, what the conflict key
is, and which columns the conflict branch assigns). A value is carried as the
rendered SQL literal plus its cast suffix (empty when there is no cast). -/
structure UpsertStmt where
  headerComment : String
  insertCols : List String
  insertVals : List (String × String)
  conflictKey : String
  updateSet : List (String × String × String)
deriving DecidableEq

/-- The column names assigned by the conflict branch of a statement. -/
def UpsertStmt.updateCols (u : UpsertStmt) : List String :=
  u.updateSet.map (fun a => a.1)

/-- The structured statement for one record: insert of all nine columns,
conflict on `id`, update of exactly the seven mutable columns. -/
def upsertOf (d : DBRecord) : UpsertStmt :=
  { headerComment := "-- Backup record: " ++ d.name ++ " (" ++ d.slug ++ ")",
    insertCols := ["id", "name", "slug", "type", "connection_string", "description",
      "status", "created_at", "updated_at"],
    insertVals := [(quoteRaw d.id, "::uuid"),
      (escape_sql_string (some d.name), ""),
      (escape_sql_string (some d.slug), ""),
      (escape_sql_string (some d.«type»), ""),
      (escape_sql_string (some d.connection_string), ""),
      (escape_sql_string d.description, ""),
      (quoteRaw d.status.value, "::database_status"),
      (quoteRaw (natRepr d.created_at), "::timestamp with time zone"),
      (quoteRaw (natRepr d.updated_at), "::timestamp with time zone")],
    conflictKey := "id",
    updateSet := [("name", escape_sql_string (some d.name), ""),
      ("slug", escape_sql_string (some d.slug), ""),
      ("type", escape_sql_string (some d.«type»), ""),
      ("connection_string", escape_sql_string (some d.connection_string), ""),
      ("description", escape_sql_string d.description, ""),
      ("status", quoteRaw d.status.value, "::database_status"),
      ("updated_at", quoteRaw (natRepr d.updated_at), "::timestamp with time zone")] }

/-- Value lines of the insert: every value indented and cast, all but the last
followed by a comma. -/
def commaLines (vals : List (String × String)) : List String :=
  vals.dropLast.map (fun v => "    " ++ v.1 ++ (v.2 ++ ","))
    ++ (match vals.getLast? with | none => [] | some v => ["    " ++ v.1 ++ v.2])

/-- Assignment lines of the conflict branch: `col = value`, all but the last
followed by a comma, the last closing the statement with a semicolon. -/
def setLines (assigns : List (String × String × String)) : List String :=
  assigns.dropLast.map (fun a => "    " ++ a.1 ++ " = " ++ a.2.1 ++ (a.2.2 ++ ","))
    ++ (match assigns.getLast? with
        | none => []
        | some a => ["    " ++ a.1 ++ " = " ++ a.2.1 ++ (a.2.2 ++ ";")])

/-- Rendering a structured upsert back to script lines. -/
def renderUpsert (u : UpsertStmt) : List String :=
  [u.headerComment,
   "INSERT INTO databases (",
   "    " ++ String.intercalate ", " u.insertCols,
   ") VALUES ("]
  ++ commaLines u.insertVals
  ++ [")", "ON CONFLICT (" ++ u.conflictKey ++ ") DO UPDATE SET"]
  ++ setLines u.updateSet
  ++ [""]

/-- A cache backend whose every operation fails (used to instantiate the
fail-open theorems at an evaluable input). -/
def failingBackend : CacheBackend :=
  { get := fun _ => .err "connection refused",
    setex := fun _ _ _ => .err "connection refused",
    keys := fun _ => .err "connection refused",
    del := fun _ => .err "connection refused" }

/-! ### Cache coherence invariant -/

/-- Every cached entry equals exactly what the corresponding miss path would
compute from the current store: a `list:` key holds the encrypted view of the
current page, an `item:` key the encrypted view of the record the lookup
resolves to. Mutations restore this trivially by emptying the namespace. -/
def CacheConsistent (bc : BlockCipher) (s : AppState) : Prop :=
  ∀ key v, (key, v) ∈ s.cache →
    (∀ skip limit : Nat, key = cache_key_database_list skip limit →
      v = .list (((s.store.drop skip).take limit).map (viewOf bc)))
    ∧ (∀ ios : String, key = cache_key_database ios →
      ∃ r, get_database_by_id_or_slug ios s.store = some r ∧ v = .item (viewOf bc r))

/-! ### Lemmas: base64 round trip -/

theorem idCipher_good : GoodCipher idCipher :=
  fun _ hl hb => ⟨rfl, hl, hb⟩

theorem b64Value_b64Char {s : Nat} (h : s < 64) : b64Value (b64Char s) = some s := by
  have key : ∀ t : Fin 64, b64Value (b64Char t.val) = some t.val := by decide
  exact key ⟨s, h⟩

theorem b64Char_ne_eqChar {s : Nat} (h : s < 64) : b64Char s ≠ eqChar := by
  have key : ∀ t : Fin 64, b64Char t.val ≠ eqChar := by decide
  exact key ⟨s, h⟩

theorem b64_roundtrip : ∀ bs : List Nat, (∀ x ∈ bs, x < 256) →
    b64DecodeChars (b64EncodeBytes bs) = some bs := by
  intro bs
  induction bs using b64EncodeBytes.induct with
  | case1 =>
    intro _
    rfl
  | case2 a =>
    intro h
    have ha : a < 256 := h a (by simp)
    have h1 : b64Value (b64Char (a / 4)) = some (a / 4) := b64Value_b64Char (by omega)
    have h2 : b64Value (b64Char (a % 4 * 16)) = some (a % 4 * 16) := b64Value_b64Char (by omega)
    simp only [b64EncodeBytes, b64DecodeChars, h1, h2, and_self, and_true, if_pos]
    have e1 : a / 4 * 4 + a % 4 * 16 / 16 = a := by omega
    rw [e1]
  | case3 a b =>
    intro h
    have ha : a < 256 := h a (by simp)
    have hb : b < 256 := h b (by simp)
    have h1 : b64Value (b64Char (a / 4)) = some (a / 4) := b64Value_b64Char (by omega)
    have h2 : b64Value (b64Char (a % 4 * 16 + b / 16)) = some (a % 4 * 16 + b / 16) :=
      b64Value_b64Char (by omega)
    have h3 : b64Value (b64Char (b % 16 * 4)) = some (b % 16 * 4) :=
      b64Value_b64Char (by omega)
    have n3 : ¬(b64Char (b % 16 * 4) = eqChar ∧ eqChar = eqChar ∧ ([] : List Char) = []) :=
      fun hc => b64Char_ne_eqChar (by omega) hc.1
    simp only [b64EncodeBytes, b64DecodeChars, h1, h2, h3, if_neg n3, and_self, and_true,
      if_pos]
    rw [if_neg (b64Char_ne_eqChar (show b % 16 * 4 < 64 by omega))]
    have e1 : a / 4 * 4 + (a % 4 * 16 + b / 16) / 16 = a := by omega
    have e2 : (a % 4 * 16 + b / 16) % 16 * 16 + b % 16 * 4 / 4 = b := by omega
    rw [e1, e2]
  | case4 a b c rest ih =>
    intro h
    have ha : a < 256 := h a (by simp)
    have hb : b < 256 := h b (by simp)
    have hc : c < 256 := h c (by simp)
    have hrest : ∀ x ∈ rest, x < 256 := fun x hx => h x (by simp [hx])
    have h1 : b64Value (b64Char (a / 4)) = some (a / 4) := b64Value_b64Char (by omega)
    have h2 : b64Value (b64Char (a % 4 * 16 + b / 16)) = some (a % 4 * 16 + b / 16) :=
      b64Value_b64Char (by omega)
    have h3 : b64Value (b64Char (b % 16 * 4 + c / 64)) = some (b % 16 * 4 + c / 64) :=
      b64Value_b64Char (by omega)
    have h4 : b64Value (b64Char (c % 64)) = some (c % 64) := b64Value_b64Char (by omega)
    have n3 : ¬(b64Char (b % 16 * 4 + c / 64) = eqChar ∧ b64Char (c % 64) = eqChar ∧
        b64EncodeBytes rest = []) :=
      fun hcon => b64Char_ne_eqChar (by omega) hcon.1
    have n4 : ¬(b64Char (c % 64) = eqChar ∧ b64EncodeBytes rest = []) :=
      fun hcon => b64Char_ne_eqChar (by omega) hcon.1
    simp only [b64EncodeBytes, b64DecodeChars, h1, h2, h3, h4, if_neg n3, if_neg n4,
      ih hrest]
    have e1 : a / 4 * 4 + (a % 4 * 16 + b / 16) / 16 = a := by omega
    have e2 : (a % 4 * 16 + b / 16) % 16 * 16 + (b % 16 * 4 + c / 64) / 4 = b := by omega
    have e3 : (b % 16 * 4 + c / 64) % 4 * 64 + c % 64 = c := by omega
    rw [e1, e2, e3]

/-! ### Lemmas: CBC round trip -/

theorem xorBlock_xorBlock (a : List Nat) : ∀ b : List Nat, a.length = b.length →
    xorBlock a (xorBlock a b) = b := by
  induction a with
  | nil =>
    intro b h
    cases b with
    | nil => rfl
    | cons y ys => simp at h
  | cons x xs ih =>
    intro b h
    cases b with
    | nil => simp at h
    | cons y ys =>
      have hlen : xs.length = ys.length := by
        simp only [List.length_cons] at h
        omega
      show (x ^^^ (x ^^^ y)) :: xorBlock xs (xorBlock xs ys) = y :: ys
      rw [← Nat.xor_assoc, Nat.xor_self, Nat.zero_xor, ih ys hlen]

theorem xorBlock_length (a b : List Nat) :
    (xorBlock a b).length = min a.length b.length := by
  simp [xorBlock]

theorem xorBlock_lt (a : List Nat) : ∀ b : List Nat, (∀ x ∈ a, x < 256) →
    (∀ x ∈ b, x < 256) → ∀ x ∈ xorBlock a b, x < 256 := by
  induction a with
  | nil => intro b _ _ x hx; simp [xorBlock] at hx
  | cons p ps ih =>
    intro b ha hb x hx
    cases b with
    | nil => simp [xorBlock] at hx
    | cons q qs =>
      simp only [xorBlock, List.zipWith_cons_cons, List.mem_cons] at hx
      rcases hx with rfl | hx
      · exact Nat.xor_lt_two_pow (n := 8) (ha p (by simp)) (hb q (by simp))
      · exact ih qs (fun y hy => ha y (by simp [hy])) (fun y hy => hb y (by simp [hy])) x hx

/-- A list of valid 16-byte blocks. -/
def GoodBlocks (bs : List (List Nat)) : Prop :=
  ∀ b ∈ bs, b.length = 16 ∧ ∀ x ∈ b, x < 256

theorem cbcDecrypt_cbcEncrypt (bc : BlockCipher) (hbc : GoodCipher bc) :
    ∀ (bs : List (List Nat)) (iv : List Nat), iv.length = 16 → (∀ x ∈ iv, x < 256) →
    GoodBlocks bs → cbcDecrypt bc iv (cbcEncrypt bc iv bs) = bs := by
  intro bs
  induction bs with
  | nil => intro iv _ _ _; rfl
  | cons b rest ih =>
    intro iv hivlen hivlt hgood
    obtain ⟨hblen, hblt⟩ := hgood b (by simp)
    have hx_len : (xorBlock iv b).length = 16 := by
      rw [xorBlock_length, hivlen, hblen]; simp
    have hx_lt : ∀ x ∈ xorBlock iv b, x < 256 := xorBlock_lt iv b hivlt hblt
    obtain ⟨hdec, helen, helt⟩ := hbc (xorBlock iv b) hx_len hx_lt
    simp only [cbcEncrypt, cbcDecrypt, List.cons.injEq]
    constructor
    · rw [hdec]
      exact xorBlock_xorBlock iv b (by omega)
    · exact ih (bc.enc (xorBlock iv b)) helen helt
        (fun q hq => hgood q (by simp [hq]))

theorem cbcEncrypt_good (bc : BlockCipher) (hbc : GoodCipher bc) :
    ∀ (bs : List (List Nat)) (iv : List Nat), iv.length = 16 → (∀ x ∈ iv, x < 256) →
    GoodBlocks bs → GoodBlocks (cbcEncrypt bc iv bs) := by
  intro bs
  induction bs with
  | nil => intro iv _ _ _ q hq; simp [cbcEncrypt] at hq
  | cons b rest ih =>
    intro iv hivlen hivlt hgood q hq
    obtain ⟨hblen, hblt⟩ := hgood b (by simp)
    have hx_len : (xorBlock iv b).length = 16 := by
      rw [xorBlock_length, hivlen, hblen]; simp
    have hx_lt : ∀ x ∈ xorBlock iv b, x < 256 := xorBlock_lt iv b hivlt hblt
    obtain ⟨_, helen, helt⟩ := hbc (xorBlock iv b) hx_len hx_lt
    simp only [cbcEncrypt, List.mem_cons] at hq
    rcases hq with rfl | hq
    · exact ⟨helen, helt⟩
    · exact ih (bc.enc (xorBlock iv b)) helen helt
        (fun p hp => hgood p (by simp [hp])) q hq

/-! ### Lemmas: blocks and flatten -/

theorem toBlocksFuel_succ_cons (f x : Nat) (xs : List Nat) :
    toBlocksFuel (f + 1) (x :: xs)
      = (x :: xs).take 16 :: toBlocksFuel f ((x :: xs).drop 16) := rfl

theorem flatten_toBlocksFuel : ∀ (fuel : Nat) (l : List Nat), l.length ≤ fuel →
    (toBlocksFuel fuel l).flatten = l := by
  intro fuel
  induction fuel with
  | zero =>
    intro l hl
    have : l = [] := List.length_eq_zero.mp (by omega)
    subst this
    rfl
  | succ f ih =>
    intro l hl
    cases l with
    | nil => rfl
    | cons x xs =>
      simp only [List.length_cons] at hl
      rw [toBlocksFuel_succ_cons]
      simp only [List.flatten_cons]
      rw [ih ((x :: xs).drop 16)
          (by simp only [List.length_drop, List.length_cons]; omega),
        List.take_append_drop]

theorem flatten_toBlocks (l : List Nat) : (toBlocks l).flatten = l :=
  flatten_toBlocksFuel l.length l (Nat.le_refl _)

theorem toBlocksFuel_flatten : ∀ (bs : List (List Nat)) (fuel : Nat),
    (∀ b ∈ bs, b.length = 16) → bs.flatten.length ≤ fuel →
    toBlocksFuel fuel bs.flatten = bs := by
  intro bs
  induction bs with
  | nil =>
    intro fuel _ _
    cases fuel <;> rfl
  | cons b rest ih =>
    intro fuel h hfuel
    have hb : b.length = 16 := h b (by simp)
    obtain ⟨x, xs, rfl⟩ : ∃ x xs, b = x :: xs := by
      cases b with
      | nil => simp at hb
      | cons x xs => exact ⟨x, xs, rfl⟩
    simp only [List.flatten_cons, List.length_append, List.length_cons] at hfuel ⊢
    cases fuel with
    | zero => omega
    | succ f =>
      rw [List.cons_append, toBlocksFuel_succ_cons, ← List.cons_append,
        List.take_left' hb, List.drop_left' hb,
        ih f (fun q hq => h q (by simp [hq])) (by omega)]

theorem toBlocks_flatten (bs : List (List Nat)) (h : ∀ b ∈ bs, b.length = 16) :
    toBlocks bs.flatten = bs :=
  toBlocksFuel_flatten bs bs.flatten.length h (Nat.le_refl _)

theorem toBlocksFuel_good : ∀ (fuel : Nat) (l : List Nat), l.length ≤ fuel →
    l.length % 16 = 0 → (∀ x ∈ l, x < 256) → GoodBlocks (toBlocksFuel fuel l) := by
  intro fuel
  induction fuel with
  | zero =>
    intro l hfuel _ _ b hb
    have : l = [] := List.length_eq_zero.mp (by omega)
    subst this
    simp [toBlocksFuel] at hb
  | succ f ih =>
    intro l hfuel hmod hlt b hb
    cases l with
    | nil => simp [toBlocksFuel] at hb
    | cons x xs =>
      simp only [List.length_cons] at hfuel hmod
      have hlen : 16 ≤ xs.length + 1 := by omega
      rw [toBlocksFuel_succ_cons] at hb
      rcases List.mem_cons.mp hb with rfl | hb
      · refine ⟨by simp only [List.length_take, List.length_cons]; omega, ?_⟩
        intro y hy
        exact hlt y (List.take_subset 16 (x :: xs) hy)
      · refine ih ((x :: xs).drop 16) ?_ ?_ ?_ b hb
        · simp only [List.length_drop, List.length_cons]; omega
        · simp only [List.length_drop, List.length_cons]; omega
        · intro y hy
          exact hlt y (List.drop_subset 16 (x :: xs) hy)

theorem toBlocks_good (l : List Nat) (hmod : l.length % 16 = 0)
    (hlt : ∀ x ∈ l, x < 256) : GoodBlocks (toBlocks l) :=
  toBlocksFuel_good l.length l (Nat.le_refl _) hmod hlt

theorem flatten_length_16 : ∀ bs : List (List Nat), (∀ b ∈ bs, b.length = 16) →
    bs.flatten.length = 16 * bs.length := by
  intro bs
  induction bs with
  | nil => intro _; rfl
  | cons b rest ih =>
    intro h
    simp only [List.flatten_cons, List.length_append, h b (by simp),
      ih (fun q hq => h q (by simp [hq])), List.length_cons]
    ring

/-! ### Lemmas: PKCS7 padding round trip -/

theorem pkcs7Pad_length_mod (p : List Nat) : (pkcs7Pad p).length % 16 = 0 := by
  simp only [pkcs7Pad, List.length_append, List.length_replicate]
  omega

theorem pkcs7Pad_ne_nil (p : List Nat) : pkcs7Pad p ≠ [] := by
  intro h
  have := congrArg List.length h
  simp only [pkcs7Pad, List.length_append, List.length_replicate, List.length_nil] at this
  omega

theorem pkcs7Pad_lt (p : List Nat) (h : ∀ x ∈ p, x < 256) :
    ∀ x ∈ pkcs7Pad p, x < 256 := by
  intro x hx
  simp only [pkcs7Pad, List.mem_append, List.mem_replicate] at hx
  rcases hx with hx | ⟨_, rfl⟩
  · exact h x hx
  · omega

theorem pkcs7Unpad_pkcs7Pad (p : List Nat) : pkcs7Unpad (pkcs7Pad p) = some p := by
  have hlen : (pkcs7Pad p).length = p.length + (16 - p.length % 16) := by
    simp [pkcs7Pad]
  have hlast : (pkcs7Pad p).getLastD 0 = 16 - p.length % 16 := by
    have hsplit : pkcs7Pad p
        = (p ++ List.replicate (16 - p.length % 16 - 1) (16 - p.length % 16))
          ++ [16 - p.length % 16] := by
      rw [pkcs7Pad, List.append_assoc]
      congr 1
      rw [← List.replicate_succ']
      congr 1
      omega
    rw [hsplit, List.getLastD_eq_getLast?, List.getLast?_concat]
    rfl
  have hc1 : ¬((pkcs7Pad p).length % 16 ≠ 0 ∨ (pkcs7Pad p).length = 0) := by
    rw [hlen]
    omega
  have hc2 : ¬(16 - p.length % 16 = 0 ∨ 16 < 16 - p.length % 16) := by omega
  have hdrop : (pkcs7Pad p).drop ((pkcs7Pad p).length - (16 - p.length % 16))
      = List.replicate (16 - p.length % 16) (16 - p.length % 16) := by
    rw [hlen]
    have he : p.length + (16 - p.length % 16) - (16 - p.length % 16) = p.length := by omega
    rw [he, pkcs7Pad, List.drop_left]
  have htake : (pkcs7Pad p).take ((pkcs7Pad p).length - (16 - p.length % 16)) = p := by
    rw [hlen]
    have he : p.length + (16 - p.length % 16) - (16 - p.length % 16) = p.length := by omega
    rw [he, pkcs7Pad, List.take_left]
  simp only [pkcs7Unpad, if_neg hc1, hlast, if_neg hc2, hdrop, htake]
  rw [if_pos]
  simp [List.all_eq_true, List.mem_replicate]

/-! ### Lemmas: UTF-8 round trip -/

theorem char_toNat_lt (c : Char) : c.toNat < 1114112 := by
  have hn : c.toNat < 55296 ∨ (57343 < c.toNat ∧ c.toNat < 1114112) := c.valid
  omega

theorem utf8EncodeCp_lt {n : Nat} (h : n < 1114112) : ∀ x ∈ utf8EncodeCp n, x < 256 := by
  intro x hx
  by_cases h1 : n < 128
  · rw [utf8EncodeCp, if_pos h1] at hx
    simp at hx
    omega
  · rw [utf8EncodeCp, if_neg h1] at hx
    by_cases h2 : n < 2048
    · rw [if_pos h2] at hx
      simp at hx
      rcases hx with rfl | rfl <;> omega
    · rw [if_neg h2] at hx
      by_cases h3 : n < 65536
      · rw [if_pos h3] at hx
        simp at hx
        rcases hx with rfl | rfl | rfl <;> omega
      · rw [if_neg h3] at hx
        simp at hx
        rcases hx with rfl | rfl | rfl | rfl <;> omega

theorem utf8EncodeCp_ne_nil (n : Nat) : utf8EncodeCp n ≠ [] := by
  rw [utf8EncodeCp]
  split_ifs <;> simp

theorem utf8Encode_lt (s : String) : ∀ x ∈ utf8Encode s, x < 256 := by
  intro x hx
  rw [utf8Encode] at hx
  obtain ⟨l, hl, hxl⟩ := List.mem_flatten.mp hx
  obtain ⟨c, _, rfl⟩ := List.mem_map.mp hl
  exact utf8EncodeCp_lt (char_toNat_lt c) x hxl

theorem charOfNat_eq {x : Nat} {c : Char} (h : x = c.toNat) : Char.ofNat x = c := by
  rw [h, Char.ofNat_toNat]

theorem utf8DecodeFuel_encode : ∀ (cs : List Char) (fuel : Nat),
    ((cs.map (fun c => utf8EncodeCp c.toNat)).flatten).length ≤ fuel →
    utf8DecodeFuel fuel ((cs.map (fun c => utf8EncodeCp c.toNat)).flatten) = some cs := by
  intro cs
  induction cs with
  | nil =>
    intro fuel _
    cases fuel <;> rfl
  | cons c rest ih =>
    intro fuel hfuel
    have hn : c.toNat < 55296 ∨ (57343 < c.toNat ∧ c.toNat < 1114112) := c.valid
    simp only [List.map_cons, List.flatten_cons] at hfuel ⊢
    by_cases h1 : c.toNat < 128
    · rw [utf8EncodeCp, if_pos h1] at hfuel ⊢
      simp only [List.cons_append, List.nil_append, List.length_cons,
        List.length_append] at hfuel ⊢
      cases fuel with
      | zero => omega
      | succ f =>
        rw [utf8DecodeFuel, if_pos h1, ih f (by omega)]
        simp only [Option.map_some', Option.some.injEq, List.cons.injEq]
        exact ⟨charOfNat_eq rfl, trivial⟩
    · rw [utf8EncodeCp, if_neg h1] at hfuel ⊢
      by_cases h2 : c.toNat < 2048
      · rw [if_pos h2] at hfuel ⊢
        simp only [List.cons_append, List.nil_append, List.length_cons,
          List.length_append] at hfuel ⊢
        cases fuel with
        | zero => omega
        | succ f =>
          rw [utf8DecodeFuel, if_neg (by omega), if_neg (by omega), if_pos (by omega),
            decodeCont2, ih f (by omega)]
          simp only [Option.map_some', Option.some.injEq, List.cons.injEq]
          exact ⟨charOfNat_eq (by omega), trivial⟩
      · rw [if_neg h2] at hfuel ⊢
        by_cases h3 : c.toNat < 65536
        · rw [if_pos h3] at hfuel ⊢
          simp only [List.cons_append, List.nil_append, List.length_cons,
            List.length_append] at hfuel ⊢
          cases fuel with
          | zero => omega
          | succ f =>
            rw [utf8DecodeFuel, if_neg (by omega), if_neg (by omega), if_neg (by omega),
              if_pos (by omega), decodeCont3, ih f (by omega)]
            simp only [Option.map_some', Option.some.injEq, List.cons.injEq]
            exact ⟨charOfNat_eq (by omega), trivial⟩
        · rw [if_neg h3] at hfuel ⊢
          simp only [List.cons_append, List.nil_append, List.length_cons,
            List.length_append] at hfuel ⊢
          cases fuel with
          | zero => omega
          | succ f =>
            rw [utf8DecodeFuel, if_neg (by omega), if_neg (by omega), if_neg (by omega),
              if_neg (by omega), decodeCont4, ih f (by omega)]
            simp only [Option.map_some', Option.some.injEq, List.cons.injEq]
            exact ⟨charOfNat_eq (by omega), trivial⟩

theorem utf8Decode_utf8Encode (cs : List Char) :
    utf8Decode ((cs.map (fun c => utf8EncodeCp c.toNat)).flatten) = some cs :=
  utf8DecodeFuel_encode cs _ (Nat.le_refl _)

theorem utf8Encode_ne_nil {s : String} (hs : s ≠ "") : utf8Encode s ≠ [] := by
  intro hcon
  apply hs
  rw [utf8Encode] at hcon
  cases hd : s.data with
  | nil =>
    cases s
    simp only at hd
    rw [hd]
  | cons c cr =>
    rw [hd] at hcon
    simp only [List.map_cons, List.flatten_cons] at hcon
    have := utf8EncodeCp_ne_nil c.toNat
    rcases List.append_eq_nil.mp hcon with ⟨h1, _⟩
    exact absurd h1 this

/-! ### Lemmas: the full cipher round trip -/

theorem cbcEncrypt_length (bc : BlockCipher) :
    ∀ (bs : List (List Nat)) (iv : List Nat), (cbcEncrypt bc iv bs).length = bs.length := by
  intro bs
  induction bs with
  | nil => intro iv; rfl
  | cons b rest ih => intro iv; simp [cbcEncrypt, ih]

theorem toBlocks_ne_nil {l : List Nat} (h : l ≠ []) : toBlocks l ≠ [] := by
  obtain ⟨x, xs, rfl⟩ : ∃ x xs, l = x :: xs := by
    cases l with
    | nil => exact absurd rfl h
    | cons x xs => exact ⟨x, xs, rfl⟩
  rw [toBlocks, List.length_cons, toBlocksFuel_succ_cons]
  simp

theorem string_mk_data (s : String) : String.mk s.data = s := by
  cases s
  rfl

theorem decrypt_encrypt_roundtrip (bc : BlockCipher) (hbc : GoodCipher bc)
    (s : String) (hs : s ≠ "") :
    decrypt_connection_string bc (encrypt_connection_string bc s) = some s := by
  have hiv_len : ENCRYPTION_IV.length = 16 := by decide
  have hiv_lt : ∀ x ∈ ENCRYPTION_IV, x < 256 := by decide
  have hpb_lt : ∀ x ∈ pkcs7Pad (utf8Encode s), x < 256 :=
    pkcs7Pad_lt (utf8Encode s) (utf8Encode_lt s)
  have hpb_mod : (pkcs7Pad (utf8Encode s)).length % 16 = 0 := pkcs7Pad_length_mod _
  have hblocks : GoodBlocks (toBlocks (pkcs7Pad (utf8Encode s))) :=
    toBlocks_good _ hpb_mod hpb_lt
  have hct : GoodBlocks (cbcEncrypt bc ENCRYPTION_IV (toBlocks (pkcs7Pad (utf8Encode s)))) :=
    cbcEncrypt_good bc hbc _ ENCRYPTION_IV hiv_len hiv_lt hblocks
  have hct_len16 : ∀ b ∈ cbcEncrypt bc ENCRYPTION_IV (toBlocks (pkcs7Pad (utf8Encode s))),
      b.length = 16 := fun b hb => (hct b hb).1
  have hct_flat_lt :
      ∀ x ∈ (cbcEncrypt bc ENCRYPTION_IV (toBlocks (pkcs7Pad (utf8Encode s)))).flatten,
      x < 256 := by
    intro x hx
    obtain ⟨l, hl, hxl⟩ := List.mem_flatten.mp hx
    exact (hct l hl).2 x hxl
  have hct_flat_len :
      (cbcEncrypt bc ENCRYPTION_IV (toBlocks (pkcs7Pad (utf8Encode s)))).flatten.length
        = 16 * (toBlocks (pkcs7Pad (utf8Encode s))).length := by
    rw [flatten_length_16 _ hct_len16, cbcEncrypt_length]
  have hblocks_ne : toBlocks (pkcs7Pad (utf8Encode s)) ≠ [] :=
    toBlocks_ne_nil (pkcs7Pad_ne_nil _)
  have hct_flat_ne :
      (cbcEncrypt bc ENCRYPTION_IV (toBlocks (pkcs7Pad (utf8Encode s)))).flatten ≠ [] := by
    intro hcon
    have hlen0 := congrArg List.length hcon
    rw [hct_flat_len] at hlen0
    simp only [List.length_nil] at hlen0
    have : (toBlocks (pkcs7Pad (utf8Encode s))).length = 0 := by omega
    exact hblocks_ne (List.length_eq_zero.mp this)
  have henc_ne : b64EncodeBytes
      ((cbcEncrypt bc ENCRYPTION_IV (toBlocks (pkcs7Pad (utf8Encode s)))).flatten) ≠ [] := by
    cases hl : (cbcEncrypt bc ENCRYPTION_IV (toBlocks (pkcs7Pad (utf8Encode s)))).flatten with
    | nil => exact absurd hl hct_flat_ne
    | cons a t =>
      cases t with
      | nil => simp [b64EncodeBytes]
      | cons a2 t2 =>
        cases t2 with
        | nil => simp [b64EncodeBytes]
        | cons a3 t3 => simp [b64EncodeBytes]
  rw [encrypt_connection_string, if_neg hs, encryptBytes]
  have hstr_ne : String.mk (b64EncodeBytes
      ((cbcEncrypt bc ENCRYPTION_IV (toBlocks (pkcs7Pad (utf8Encode s)))).flatten)) ≠ "" := by
    intro hcon
    apply henc_ne
    have := congrArg String.data hcon
    simpa using this
  rw [decrypt_connection_string, if_neg hstr_ne]
  have hdataeq : (String.mk (b64EncodeBytes
      ((cbcEncrypt bc ENCRYPTION_IV (toBlocks (pkcs7Pad (utf8Encode s)))).flatten))).data
      = b64EncodeBytes
        ((cbcEncrypt bc ENCRYPTION_IV (toBlocks (pkcs7Pad (utf8Encode s)))).flatten) := rfl
  rw [hdataeq, b64_roundtrip _ hct_flat_lt]
  simp only [Option.bind]
  rw [if_pos (show ((cbcEncrypt bc ENCRYPTION_IV
      (toBlocks (pkcs7Pad (utf8Encode s)))).flatten).length % 16 = 0 by
    rw [hct_flat_len]; omega)]
  rw [toBlocks_flatten _ hct_len16]
  rw [cbcDecrypt_cbcEncrypt bc hbc _ ENCRYPTION_IV hiv_len hiv_lt hblocks]
  rw [flatten_toBlocks, pkcs7Unpad_pkcs7Pad]
  simp only [Option.bind]
  have hdec : utf8Decode (utf8Encode s) = some s.data := utf8Decode_utf8Encode s.data
  rw [hdec]
  simp [string_mk_data]

/-! ### Lemmas: the slug resolver -/

theorem toNat_ofNat_valid {m : Nat} (h : m < 55296) : (Char.ofNat m).toNat = m := by
  rw [Char.ofNat, dif_pos (Or.inl h)]
  rfl

theorem string_data_inj {s t : String} (h : s.data = t.data) : s = t :=
  congrArg String.mk h

theorem digitsVal_append_digit (l : List Char) (c : Char) :
    digitsVal (l ++ [c]) = digitsVal l * 10 + (c.toNat - 48) := by
  simp [digitsVal, List.foldl_append]

theorem digitsVal_natDigitsFuel : ∀ fuel n, n < fuel →
    digitsVal (natDigitsFuel fuel n) = n := by
  intro fuel
  induction fuel with
  | zero => intro n h; omega
  | succ f ih =>
    intro n h
    rw [natDigitsFuel]
    by_cases h10 : n < 10
    · rw [if_pos h10]
      have : (digitChar n).toNat = 48 + n := toNat_ofNat_valid (by omega)
      simp [digitsVal, this]
    · rw [if_neg h10]
      rw [digitsVal_append_digit, ih (n / 10) (by omega)]
      have : (digitChar (n % 10)).toNat = 48 + n % 10 := toNat_ofNat_valid (by omega)
      rw [this]
      omega

theorem natRepr_inj {m n : Nat} (h : natRepr m = natRepr n) : m = n := by
  have hd : natDigitsFuel (m + 1) m = natDigitsFuel (n + 1) n := by
    have := congrArg String.data h
    simpa [natRepr] using this
  have := congrArg digitsVal hd
  rwa [digitsVal_natDigitsFuel (m + 1) m (by omega),
    digitsVal_natDigitsFuel (n + 1) n (by omega)] at this

theorem natDigitsFuel_ne_nil (n : Nat) : natDigitsFuel (n + 1) n ≠ [] := by
  rw [natDigitsFuel]
  by_cases h10 : n < 10
  · rw [if_pos h10]; simp
  · rw [if_neg h10]; simp

theorem slugCandidate_inj (base : String) : ∀ {j k : Nat},
    slugCandidate base j = slugCandidate base k → j = k := by
  intro j k h
  match j, k with
  | 0, 0 => rfl
  | 0, k + 1 =>
    exfalso
    have h1 := congrArg (fun s => s.data.length) h
    simp only [slugCandidate] at h1
    simp only [natRepr, String.data_append, List.length_append] at h1
    have := natDigitsFuel_ne_nil (k + 1)
    have hne : (natDigitsFuel (k + 2) (k + 1)).length ≠ 0 := by
      intro h0
      exact this (List.length_eq_zero.mp h0)
    simp at h1
    omega
  | j + 1, 0 =>
    exfalso
    have h1 := congrArg (fun s => s.data.length) h
    simp only [slugCandidate] at h1
    simp only [natRepr, String.data_append, List.length_append] at h1
    have := natDigitsFuel_ne_nil (j + 1)
    have hne : (natDigitsFuel (j + 2) (j + 1)).length ≠ 0 := by
      intro h0
      exact this (List.length_eq_zero.mp h0)
    simp at h1
    omega
  | j + 1, k + 1 =>
    have hdata := congrArg String.data h
    simp only [slugCandidate, String.data_append] at hdata
    have hdig : (natRepr (j + 1)).data = (natRepr (k + 1)).data :=
      List.append_cancel_left hdata
    have : natRepr (j + 1) = natRepr (k + 1) := string_data_inj hdig
    have := natRepr_inj this
    omega

theorem exists_free_candidate (base : String) (existing : List String) :
    ∃ j, j ≤ existing.length ∧ slugCandidate base j ∉ existing := by
  by_contra hcon
  push_neg at hcon
  have hnodup : ((List.range (existing.length + 1)).map (slugCandidate base)).Nodup := by
    refine List.Nodup.map ?_ (List.nodup_range _)
    intro a b hab
    exact slugCandidate_inj base hab
  have hsub : ((List.range (existing.length + 1)).map (slugCandidate base)).toFinset
      ⊆ existing.toFinset := by
    intro x hx
    rw [List.mem_toFinset] at hx ⊢
    obtain ⟨j, hj, rfl⟩ := List.mem_map.mp hx
    exact hcon j (by simpa using Nat.lt_succ_iff.mp (List.mem_range.mp hj))
  have hcard : existing.length + 1 ≤ existing.length := by
    calc existing.length + 1
        = ((List.range (existing.length + 1)).map (slugCandidate base)).length := by simp
      _ = ((List.range (existing.length + 1)).map (slugCandidate base)).toFinset.card :=
          (List.toFinset_card_of_nodup hnodup).symm
      _ ≤ existing.toFinset.card := Finset.card_le_card hsub
      _ ≤ existing.length := List.toFinset_card_le existing
  omega

theorem uniqueSlugLoop_not_mem (base : String) (existing : List String) :
    ∀ fuel k, (∃ j, k ≤ j ∧ j < k + fuel ∧ slugCandidate base j ∉ existing) →
    uniqueSlugLoop base existing fuel k ∉ existing := by
  intro fuel
  induction fuel with
  | zero =>
    intro k ⟨j, h1, h2, _⟩
    omega
  | succ f ih =>
    intro k ⟨j, hkj, hjlt, hfree⟩
    rw [uniqueSlugLoop]
    by_cases hmem : slugCandidate base k ∈ existing
    · rw [if_pos hmem]
      refine ih (k + 1) ⟨j, ?_, by omega, hfree⟩
      have : j ≠ k := fun e => hfree (e ▸ hmem)
      omega
    · rw [if_neg hmem]
      exact hmem

theorem uniqueSlugLoop_least (base : String) (existing : List String) :
    ∀ fuel k m, k ≤ m → m < k + fuel →
    (∀ i, k ≤ i → i < m → slugCandidate base i ∈ existing) →
    slugCandidate base m ∉ existing →
    uniqueSlugLoop base existing fuel k = slugCandidate base m := by
  intro fuel
  induction fuel with
  | zero =>
    intro k m h1 h2
    omega
  | succ f ih =>
    intro k m hkm hmlt hall hfree
    rw [uniqueSlugLoop]
    by_cases hkem : k = m
    · subst hkem
      rw [if_neg hfree]
    · have hkm' : k < m := by omega
      rw [if_pos (hall k (Nat.le_refl k) hkm')]
      exact ih (k + 1) m (by omega) (by omega) (fun i hi1 hi2 => hall i (by omega) hi2) hfree

/-! ### Lemmas: cache keys -/

theorem lookup_mem {key : String} {v : CacheVal} :
    ∀ {cache : List (String × CacheVal)}, List.lookup key cache = some v →
    (key, v) ∈ cache := by
  intro cache
  induction cache with
  | nil => intro h; simp [List.lookup] at h
  | cons e rest ih =>
    intro h
    rw [List.lookup] at h
    cases he : key == e.1 with
    | true =>
      rw [he] at h
      simp only [Option.some.injEq] at h
      have hk : key = e.1 := by simpa using he
      subst h
      rw [hk]
      exact List.mem_cons_self _ _
    | false =>
      rw [he] at h
      exact List.mem_cons_of_mem e (ih h)

theorem natDigitsFuel_digits : ∀ fuel n, ∀ c ∈ natDigitsFuel fuel n,
    48 ≤ c.toNat ∧ c.toNat ≤ 57 := by
  intro fuel
  induction fuel with
  | zero => intro n c hc; simp [natDigitsFuel] at hc
  | succ f ih =>
    intro n c hc
    rw [natDigitsFuel] at hc
    by_cases h10 : n < 10
    · rw [if_pos h10] at hc
      simp at hc
      subst hc
      have : (digitChar n).toNat = 48 + n := toNat_ofNat_valid (by omega)
      omega
    · rw [if_neg h10] at hc
      rcases List.mem_append.mp hc with hc | hc
      · exact ih (n / 10) c hc
      · simp at hc
        subst hc
        have : (digitChar (n % 10)).toNat = 48 + n % 10 := toNat_ofNat_valid (by omega)
        have hm : n % 10 < 10 := Nat.mod_lt n (by omega)
        omega

/-- The colon character (ASCII 58). -/
theorem colon_not_digit {c : Char} (h : 48 ≤ c.toNat ∧ c.toNat ≤ 57) :
    c ≠ Char.ofNat 58 := by
  intro hcon
  subst hcon
  rw [toNat_ofNat_valid (by omega)] at h
  omega

theorem colonFree_split : ∀ (a b : List Char),
    (∀ c ∈ a, c ≠ Char.ofNat 58) → (∀ c ∈ b, c ≠ Char.ofNat 58) →
    ∀ (x y : List Char), a ++ Char.ofNat 58 :: x = b ++ Char.ofNat 58 :: y →
    a = b ∧ x = y := by
  intro a
  induction a with
  | nil =>
    intro b _ hb x y h
    cases b with
    | nil => simpa using h
    | cons c bs =>
      simp only [List.nil_append, List.cons_append, List.cons.injEq] at h
      exact absurd h.1.symm (hb c (by simp))
  | cons c as ih =>
    intro b ha hb x y h
    cases b with
    | nil =>
      simp only [List.nil_append, List.cons_append, List.cons.injEq] at h
      exact absurd h.1 (ha c (by simp))
    | cons d bs =>
      simp only [List.cons_append, List.cons.injEq] at h
      obtain ⟨rfl, h2⟩ := h
      obtain ⟨rfl, rfl⟩ := ih bs (fun q hq => ha q (by simp [hq]))
        (fun q hq => hb q (by simp [hq])) x y h2
      exact ⟨rfl, rfl⟩

theorem natRepr_colonFree (n : Nat) : ∀ c ∈ (natRepr n).data, c ≠ Char.ofNat 58 := by
  intro c hc
  exact colon_not_digit (natDigitsFuel_digits (n + 1) n c hc)

theorem cache_key_database_list_inj {s1 l1 s2 l2 : Nat}
    (h : cache_key_database_list s1 l1 = cache_key_database_list s2 l2) :
    s1 = s2 ∧ l1 = l2 := by
  have hd := congrArg String.data h
  simp only [cache_key_database_list, String.data_append, List.append_assoc] at hd
  have h2 := List.append_cancel_left hd
  simp only [List.singleton_append] at h2
  obtain ⟨hs, hl⟩ := colonFree_split _ _ (natRepr_colonFree s1) (natRepr_colonFree s2) _ _ h2
  exact ⟨natRepr_inj (string_data_inj hs), natRepr_inj (string_data_inj hl)⟩

theorem cache_key_database_inj {a b : String}
    (h : cache_key_database a = cache_key_database b) : a = b := by
  have hd := congrArg String.data h
  simp only [cache_key_database, String.data_append] at hd
  exact string_data_inj (List.append_cancel_left hd)

theorem list_key_ne_item_key (skip limit : Nat) (ios : String) :
    cache_key_database_list skip limit ≠ cache_key_database ios := by
  intro h
  have hd := congrArg (fun s => s.data[10]?) h
  simp only [cache_key_database_list, cache_key_database, String.data_append] at hd
  rw [List.append_assoc, List.append_assoc] at hd
  have h1 : (("databases:list:".data ++ ((natRepr skip).data
      ++ (":".data ++ (natRepr limit).data)))[10]?) = some (Char.ofNat 108) := by
    rw [List.getElem?_append_left (by decide)]
    decide
  have h2 : (("databases:item:".data ++ ios.data)[10]?) = some (Char.ofNat 105) := by
    rw [List.getElem?_append_left (by decide)]
    decide
  rw [h1, h2] at hd
  simp at hd

theorem globMatch_list_key (skip limit : Nat) :
    globMatch "databases:*" (cache_key_database_list skip limit) = true := by
  rw [globMatch, if_pos (by decide)]
  have hsplit : (cache_key_database_list skip limit).data
      = "databases:".data ++ ("list:".data ++ ((natRepr skip).data
        ++ (":".data ++ (natRepr limit).data))) := by
    simp only [cache_key_database_list, String.data_append, List.append_assoc,
      List.cons_append, List.nil_append]
  rw [hsplit]
  have : ("databases:*".data.dropLast : List Char) = "databases:".data := by decide
  rw [this]
  exact List.isPrefixOf_iff_prefix.mpr (List.prefix_append _ _)

theorem globMatch_item_key (ios : String) :
    globMatch "databases:*" (cache_key_database ios) = true := by
  rw [globMatch, if_pos (by decide)]
  have hsplit : (cache_key_database ios).data
      = "databases:".data ++ ("item:".data ++ ios.data) := by
    simp only [cache_key_database, String.data_append, List.append_assoc,
      List.cons_append, List.nil_append]
  rw [hsplit]
  have : ("databases:*".data.dropLast : List Char) = "databases:".data := by decide
  rw [this]
  exact List.isPrefixOf_iff_prefix.mpr (List.prefix_append _ _)

theorem invalidate_no_registry_key (cache : List (String × CacheVal)) :
    ∀ e ∈ invalidate_database_cache cache, globMatch "databases:*" e.1 = false := by
  intro e he
  rw [invalidate_database_cache, deletePatternState] at he
  have := (List.mem_filter.mp he).2
  simpa using this

theorem invalidate_lookup_list (cache : List (String × CacheVal)) (skip limit : Nat) :
    List.lookup (cache_key_database_list skip limit)
      (invalidate_database_cache cache) = none := by
  cases hl : List.lookup (cache_key_database_list skip limit)
      (invalidate_database_cache cache) with
  | none => rfl
  | some v =>
    exfalso
    have hmem := lookup_mem hl
    have := invalidate_no_registry_key cache _ hmem
    rw [globMatch_list_key] at this
    simp at this

theorem invalidate_lookup_item (cache : List (String × CacheVal)) (ios : String) :
    List.lookup (cache_key_database ios) (invalidate_database_cache cache) = none := by
  cases hl : List.lookup (cache_key_database ios) (invalidate_database_cache cache) with
  | none => rfl
  | some v =>
    exfalso
    have hmem := lookup_mem hl
    have := invalidate_no_registry_key cache _ hmem
    rw [globMatch_item_key] at this
    simp at this

/-! ### Lemmas: cache coherence across the operations -/

theorem cacheConsistent_empty (bc : BlockCipher) (store : List DBRecord) :
    CacheConsistent bc ⟨store, []⟩ := by
  intro key v hmem
  simp at hmem

theorem cacheConsistent_invalidate (bc : BlockCipher) (store : List DBRecord)
    (cache : List (String × CacheVal)) :
    CacheConsistent bc ⟨store, invalidate_database_cache cache⟩ := by
  intro key v hmem
  constructor
  · intro skip limit hkey
    exfalso
    have hno := invalidate_no_registry_key cache _ hmem
    rw [hkey, globMatch_list_key] at hno
    simp at hno
  · intro ios hkey
    exfalso
    have hno := invalidate_no_registry_key cache _ hmem
    rw [hkey, globMatch_item_key] at hno
    simp at hno

theorem cacheConsistent_listMiss (bc : BlockCipher) (skip limit : Nat) (s : AppState)
    (h : CacheConsistent bc s) : CacheConsistent bc (listMiss bc skip limit s).2.2 := by
  intro key v hmem
  simp only [listMiss, cacheSet] at hmem
  rcases List.mem_cons.mp hmem with heq | hmem'
  · cases heq
    constructor
    · intro skip' limit' hkey
      obtain ⟨rfl, rfl⟩ := cache_key_database_list_inj hkey.symm
      rfl
    · intro ios hkey
      exact absurd hkey (list_key_ne_item_key skip limit ios)
  · exact h key v (List.mem_filter.mp hmem').1

theorem cacheConsistent_itemMiss (bc : BlockCipher) (ios : String) (s : AppState)
    (h : CacheConsistent bc s) :
    ∀ v st s', itemMiss bc ios s = .ok (v, st, s') → CacheConsistent bc s' := by
  intro v st s' hok
  rw [itemMiss] at hok
  cases hlk : get_database_by_id_or_slug ios s.store with
  | none =>
    rw [hlk] at hok
    cases hok
  | some r =>
    rw [hlk] at hok
    cases hok
    intro key v' hmem
    simp only [cacheSet] at hmem
    rcases List.mem_cons.mp hmem with heq | hmem'
    · cases heq
      constructor
      · intro skip limit hkey
        exact absurd hkey.symm (list_key_ne_item_key skip limit ios)
      · intro ios' hkey
        obtain rfl := cache_key_database_inj hkey.symm
        exact ⟨r, hlk, rfl⟩
    · exact h key v' (List.mem_filter.mp hmem').1

theorem get_databases_ok (bc : BlockCipher) (skip limit : Nat) (s : AppState)
    (h : CacheConsistent bc s) :
    ∀ views st s', get_databases bc skip limit s = .ok (views, st, s') →
      views = ((s.store.drop skip).take limit).map (viewOf bc)
      ∧ s'.store = s.store ∧ CacheConsistent bc s' := by
  intro views st s' hok
  rw [get_databases] at hok
  cases hlk : List.lookup (cache_key_database_list skip limit) s.cache with
  | none =>
    rw [hlk] at hok
    cases hok
    exact ⟨rfl, rfl, cacheConsistent_listMiss bc skip limit s h⟩
  | some cv =>
    rw [hlk] at hok
    cases cv with
    | item w => cases hok
    | list items =>
      simp only [] at hok
      by_cases hi : items = []
      · rw [if_pos hi] at hok
        cases hok
        exact ⟨rfl, rfl, cacheConsistent_listMiss bc skip limit s h⟩
      · rw [if_neg hi] at hok
        cases hok
        have hinv := (h _ _ (lookup_mem hlk)).1 skip limit rfl
        simp only [CacheVal.list.injEq] at hinv
        exact ⟨hinv, rfl, h⟩

theorem get_database_ok (bc : BlockCipher) (ios : String) (s : AppState)
    (h : CacheConsistent bc s) :
    ∀ v st s', get_database bc ios s = .ok (v, st, s') →
      (∃ r, get_database_by_id_or_slug ios s.store = some r ∧ v = viewOf bc r)
      ∧ s'.store = s.store ∧ CacheConsistent bc s' := by
  intro v st s' hok
  rw [get_database] at hok
  have hmiss : ∀ (hok2 : itemMiss bc ios s = .ok (v, st, s')),
      (∃ r, get_database_by_id_or_slug ios s.store = some r ∧ v = viewOf bc r)
      ∧ s'.store = s.store ∧ CacheConsistent bc s' := by
    intro hok2
    have hcons := cacheConsistent_itemMiss bc ios s h v st s' hok2
    rw [itemMiss] at hok2
    cases hlk2 : get_database_by_id_or_slug ios s.store with
    | none => rw [hlk2] at hok2; cases hok2
    | some r =>
      rw [hlk2] at hok2
      cases hok2
      exact ⟨⟨r, rfl, rfl⟩, rfl, hcons⟩
  cases hlk : List.lookup (cache_key_database ios) s.cache with
  | none =>
    rw [hlk] at hok
    exact hmiss hok
  | some cv =>
    rw [hlk] at hok
    cases cv with
    | item w =>
      cases hok
      obtain ⟨r, hr, hv⟩ := (h _ _ (lookup_mem hlk)).2 ios rfl
      simp only [CacheVal.item.injEq] at hv
      exact ⟨⟨r, hr, hv⟩, rfl, h⟩
    | list items =>
      simp only [] at hok
      by_cases hi : items = []
      · rw [if_pos hi] at hok
        exact hmiss hok
      · rw [if_neg hi] at hok
        cases hok

theorem create_database_ok (bc : BlockCipher) (inp : DatabaseCreate) (newId : String)
    (now : Nat) (s : AppState) :
    ∀ v s', create_database bc inp newId now s = .ok (v, s') →
      ∃ r, r ∈ s'.store ∧ v = viewOf bc r
        ∧ r.connection_string = inp.connection_string
        ∧ r.slug = generate_unique_slug inp.name (s.store.map (fun q => q.slug))
        ∧ s'.cache = invalidate_database_cache s.cache
        ∧ CacheConsistent bc s' := by
  intro v s' hok
  rw [create_database] at hok
  by_cases hmem : generate_unique_slug inp.name (s.store.map (fun q => q.slug))
      ∈ s.store.map (fun q => q.slug)
  · rw [if_pos hmem] at hok
    cases hok
  · rw [if_neg hmem] at hok
    cases hok
    refine ⟨_, List.mem_append_right _ (List.mem_singleton.mpr rfl), rfl, rfl, rfl, rfl, ?_⟩
    exact cacheConsistent_invalidate bc _ s.cache

theorem update_database_ok (bc : BlockCipher) (ios : String) (u : DatabaseUpdate)
    (now : Nat) (s : AppState) :
    ∀ v s', update_database bc ios u now s = .ok (v, s') →
      ∃ r r2, get_database_by_id_or_slug ios s.store = some r
        ∧ commitUpdate r u now = some r2 ∧ v = viewOf bc r2 ∧ r2 ∈ s'.store
        ∧ s'.cache = invalidate_database_cache s.cache
        ∧ CacheConsistent bc s' := by
  intro v s' hok
  rw [update_database] at hok
  split at hok
  · cases hok
  next r hlk =>
    split at hok
    · cases hok
    next r2 hcm =>
      cases hok
      refine ⟨r, r2, hlk, hcm, rfl, ?_, rfl, cacheConsistent_invalidate bc _ s.cache⟩
      have hrmem : r ∈ s.store := by
        rw [get_database_by_id_or_slug] at hlk
        by_cases hp : parsesAsUUID ios
        · rw [if_pos hp] at hlk
          exact List.mem_of_find?_eq_some hlk
        · rw [if_neg hp] at hlk
          exact List.mem_of_find?_eq_some hlk
      have hfix : (fun q => if q.id == r.id then r2 else q) r = r2 := by simp
      have hmm := List.mem_map_of_mem (fun q => if q.id == r.id then r2 else q) hrmem
      rw [hfix] at hmm
      exact hmm

theorem delete_database_ok (bc : BlockCipher) (ios : String) (s : AppState) :
    ∀ s', delete_database ios s = .ok s' →
      s'.cache = invalidate_database_cache s.cache ∧ CacheConsistent bc s' := by
  intro s' hok
  rw [delete_database] at hok
  cases hlk : get_database_by_id_or_slug ios s.store with
  | none => rw [hlk] at hok; cases hok
  | some r =>
    rw [hlk] at hok
    cases hok
    exact ⟨rfl, cacheConsistent_invalidate bc _ s.cache⟩

/-! ### Claim theorems -/

/-- C2 (counterexample): the round trip fails on the empty string: the code
maps `""` to `""` under encryption, and decryption of `""` returns the
unavailable marker `None`, not `""`. -/
theorem cipher_empty_roundtrip_counterexample :
    decrypt_connection_string idCipher (encrypt_connection_string idCipher "") = none
    ∧ decrypt_connection_string idCipher (encrypt_connection_string idCipher "") ≠ some "" := by
  constructor
  · rfl
  · intro h
    cases h

/-- C2 (amended): for every nonempty plaintext `p`,
`decrypt_connection_string (encrypt_connection_string p) = some p`; the empty
string encrypts to `""`, and decrypting `""` yields `none` (so the empty
string does not round-trip to itself). Stated for any correct block cipher —
AES-256 under the fixed key is one. -/
theorem cipher_roundtrip_amended (bc : BlockCipher) (hbc : GoodCipher bc) :
    (∀ p : String, p ≠ "" →
      decrypt_connection_string bc (encrypt_connection_string bc p) = some p)
    ∧ encrypt_connection_string bc "" = ""
    ∧ decrypt_connection_string bc "" = none :=
  ⟨fun p hp => decrypt_encrypt_roundtrip bc hbc p hp, rfl, rfl⟩

theorem cipher_roundtrip_amended_witness :
    GoodCipher idCipher ∧ ("abc" : String) ≠ ""
    ∧ decrypt_connection_string idCipher (encrypt_connection_string idCipher "abc")
        = some "abc" :=
  ⟨idCipher_good, by decide,
    (cipher_roundtrip_amended idCipher idCipher_good).1 "abc" (by decide)⟩

/-- C4: `generate_unique_slug` returns a slug not present in storage; the slug
is `generate_slug name` itself when free, otherwise `generate_slug name`
suffixed with `-k` for the first counter `k = 1, 2, ...` whose candidate is
free (every earlier candidate is taken); hence a second create with the same
base name receives a distinct slug. -/
theorem unique_slug_spec (name : String) (existing : List String) :
    generate_unique_slug name existing ∉ existing
    ∧ (generate_slug name ∉ existing →
        generate_unique_slug name existing = generate_slug name)
    ∧ (generate_slug name ∈ existing →
        ∃ k, 1 ≤ k
          ∧ generate_unique_slug name existing = generate_slug name ++ "-" ++ natRepr k
          ∧ ∀ i, i < k → slugCandidate (generate_slug name) i ∈ existing)
    ∧ generate_unique_slug name (generate_unique_slug name existing :: existing)
        ≠ generate_unique_slug name existing := by
  obtain ⟨j, hjle, hjfree⟩ := exists_free_candidate (generate_slug name) existing
  have hnotmem : ∀ ex2 : List String, generate_unique_slug name ex2 ∉ ex2 := by
    intro ex2
    obtain ⟨j2, hj2le, hj2free⟩ := exists_free_candidate (generate_slug name) ex2
    exact uniqueSlugLoop_not_mem (generate_slug name) ex2 (ex2.length + 1) 0
      ⟨j2, by omega, by omega, hj2free⟩
  refine ⟨hnotmem existing, ?_, ?_, ?_⟩
  · intro hfree
    exact uniqueSlugLoop_least (generate_slug name) existing (existing.length + 1) 0 0
      (Nat.le_refl 0) (by omega) (by omega) hfree
  · intro htaken
    have hex : ∃ m, slugCandidate (generate_slug name) m ∉ existing := ⟨j, hjfree⟩
    have hfind := Nat.find_spec hex
    have hk1 : 1 ≤ Nat.find hex := by
      rcases Nat.eq_zero_or_pos (Nat.find hex) with h0 | h1
      · exfalso
        rw [h0] at hfind
        exact hfind htaken
      · exact h1
    have hkle : Nat.find hex ≤ j := Nat.find_min' hex hjfree
    refine ⟨Nat.find hex, hk1, ?_, ?_⟩
    · have hres := uniqueSlugLoop_least (generate_slug name) existing
        (existing.length + 1) 0 (Nat.find hex) (by omega) (by omega)
        (fun i _ hilt => by
          by_contra hni
          exact absurd hni (Nat.find_min hex hilt))
        hfind
      rw [generate_unique_slug, hres]
      cases hk : Nat.find hex with
      | zero => omega
      | succ k' => rfl
    · intro i hilt
      by_contra hni
      exact absurd hni (Nat.find_min hex hilt)
  · intro heq
    have hm := hnotmem (generate_unique_slug name existing :: existing)
    rw [heq] at hm
    exact hm (List.mem_cons_self _ _)

theorem unique_slug_spec_witness :
    generate_slug "Prod DB" ∈ ["prod-db"]
    ∧ (∃ k, 1 ≤ k
        ∧ generate_unique_slug "Prod DB" ["prod-db"]
            = generate_slug "Prod DB" ++ "-" ++ natRepr k
        ∧ ∀ i, i < k → slugCandidate (generate_slug "Prod DB") i ∈ ["prod-db"])
    ∧ generate_unique_slug "Prod DB" [] ∉ ([] : List String) :=
  ⟨by decide, (unique_slug_spec "Prod DB" ["prod-db"]).2.2.1 (by decide),
    (unique_slug_spec "Prod DB" []).1⟩

/-- C5 (code behaviour at the failing input): for an empty name, or a name
made entirely of characters outside `[a-z0-9]`, `generate_slug` produces the
empty string, and `generate_unique_slug` then returns that empty string as the
unique key when no record carries the empty slug — there is no fallback to a
non-empty placeholder anywhere in `app/utils/slug.py`. -/
theorem empty_slug_no_placeholder :
    generate_slug "" = "" ∧ generate_slug "!!!" = ""
    ∧ generate_unique_slug "" [] = ""
    ∧ generate_unique_slug "!!!" [] = "" := by decide

/-- C7: every cache operation is fail-open: a backend or serialization error
on `get` yields `none` (a miss), and a failed `set`/`delete`/`delete_pattern`
returns `false` instead of raising; no error escapes the functions. -/
theorem cache_fail_open {α : Type} (b : CacheBackend) (loads : String → Option α)
    (dumps : α → Option String) (key pat : String) (ttl : Nat) (value : α) :
    (∀ e, b.get key = .err e → get_cache b loads key = none)
    ∧ (b.get key = .ok none → get_cache b loads key = none)
    ∧ (∀ v, b.get key = .ok (some v) → loads v = none → get_cache b loads key = none)
    ∧ (dumps value = none → set_cache b dumps key ttl value = false)
    ∧ (∀ sv e, dumps value = some sv → b.setex key ttl sv = .err e →
        set_cache b dumps key ttl value = false)
    ∧ (∀ e, b.keys pat = .err e → delete_pattern b pat = false)
    ∧ (∀ ks e, b.keys pat = .ok ks → ks ≠ [] → b.del ks = .err e →
        delete_pattern b pat = false)
    ∧ (∀ e, b.del [key] = .err e → delete_cache b key = false) := by
  refine ⟨?_, ?_, ?_, ?_, ?_, ?_, ?_, ?_⟩
  · intro e hget
    simp [get_cache, hget]
  · intro hget
    simp [get_cache, hget]
  · intro v hget hloads
    by_cases hv : v = ""
    · simp [get_cache, hget, hv]
    · simp [get_cache, hget, hv, hloads]
  · intro hdumps
    simp [set_cache, hdumps]
  · intro sv e hdumps hset
    simp [set_cache, hdumps, hset]
  · intro e hkeys
    simp [delete_pattern, hkeys]
  · intro ks e hkeys hne hdel
    simp [delete_pattern, hkeys, hne, hdel]
  · intro e hdel
    simp [delete_cache, hdel]

theorem cache_fail_open_witness :
    failingBackend.get "databases:list:0:100" = .err "connection refused"
    ∧ get_cache failingBackend (fun _ => some (CacheVal.list [])) "databases:list:0:100"
        = none
    ∧ delete_pattern failingBackend "databases:*" = false :=
  ⟨rfl,
    (cache_fail_open failingBackend (fun _ => some (CacheVal.list []))
      (fun _ => some "[]") "databases:list:0:100" "databases:*" 300
      (CacheVal.list [])).1 "connection refused" rfl,
    (cache_fail_open failingBackend (fun _ => some (CacheVal.list []))
      (fun _ => some "[]") "databases:list:0:100" "databases:*" 300
      (CacheVal.list [])).2.2.2.2.2.1 "connection refused" rfl⟩

/-- C8 (counterexample): an empty PATCH payload refutes the unconditional
"updated_at is refreshed by the persist step": the setattr loop runs zero
times, `db.commit()` emits no UPDATE, `onupdate=func.now()` never fires, yet
the endpoint still answers 200 — the returned view carries the old
`updated_at` (1), not the request time (7). -/
theorem update_empty_payload_counterexample :
    update_database idCipher "s" ⟨none, none, none, none, none⟩ 7
        (⟨[⟨"id1", "N", "s", "t", "c", none, .active, 1, 1⟩], []⟩ : AppState)
      = .ok (viewOf idCipher ⟨"id1", "N", "s", "t", "c", none, .active, 1, 1⟩,
          ⟨[⟨"id1", "N", "s", "t", "c", none, .active, 1, 1⟩], []⟩)
    ∧ (viewOf idCipher ⟨"id1", "N", "s", "t", "c", none, .active, 1, 1⟩).updated_at = 1
    ∧ (1 : Nat) ≠ 7 :=
  ⟨rfl, rfl, by decide⟩

/-- C8 (amended): the update applies exactly the fields explicitly present in
the payload: an absent field (`none`) leaves the attribute unchanged, a
present field — including an explicit `null` — overwrites it (nullable
`description` keeps an explicit null through the commit), and the persist
step refreshes `updated_at` exactly when the payload produces a net change to
the record's attributes; a no-net-change payload — an empty PATCH body in
particular — emits no UPDATE and leaves the row, `updated_at` included,
unchanged, both at the commit and in the returned view. -/
theorem partial_update_semantics (r : DBRecord) (u : DatabaseUpdate) (now : Nat) :
    (u.name = none → (apply_update_fields (DBObj.ofRecord r) u).name = some r.name)
    ∧ (∀ v, u.name = some v → (apply_update_fields (DBObj.ofRecord r) u).name = v)
    ∧ (u.«type» = none → (apply_update_fields (DBObj.ofRecord r) u).«type» = some r.«type»)
    ∧ (∀ v, u.«type» = some v → (apply_update_fields (DBObj.ofRecord r) u).«type» = v)
    ∧ (u.connection_string = none →
        (apply_update_fields (DBObj.ofRecord r) u).connection_string
          = some r.connection_string)
    ∧ (∀ v, u.connection_string = some v →
        (apply_update_fields (DBObj.ofRecord r) u).connection_string = v)
    ∧ (u.description = none →
        (apply_update_fields (DBObj.ofRecord r) u).description = r.description)
    ∧ (∀ v, u.description = some v →
        (apply_update_fields (DBObj.ofRecord r) u).description = v)
    ∧ (u.status = none → (apply_update_fields (DBObj.ofRecord r) u).status = some r.status)
    ∧ (∀ v, u.status = some v → (apply_update_fields (DBObj.ofRecord r) u).status = v)
    ∧ (∀ r2, commitUpdate r u now = some r2 →
        apply_update_fields (DBObj.ofRecord r) u ≠ DBObj.ofRecord r →
        r2.updated_at = now)
    ∧ (apply_update_fields (DBObj.ofRecord r) u = DBObj.ofRecord r →
        commitUpdate r u now = some r)
    ∧ (u.description = some none →
        ∀ r2, commitUpdate r u now = some r2 → r2.description = none)
    ∧ (∀ bc ios v s s', update_database bc ios u now s = .ok (v, s') →
        ∃ rr r2, get_database_by_id_or_slug ios s.store = some rr
          ∧ commitUpdate rr u now = some r2 ∧ v = viewOf bc r2
          ∧ (apply_update_fields (DBObj.ofRecord rr) u ≠ DBObj.ofRecord rr →
              v.updated_at = now)
          ∧ (apply_update_fields (DBObj.ofRecord rr) u = DBObj.ofRecord rr →
              v.updated_at = rr.updated_at)) := by
  refine ⟨?_, ?_, ?_, ?_, ?_, ?_, ?_, ?_, ?_, ?_, ?_, ?_, ?_, ?_⟩
  · intro h; simp [apply_update_fields, DBObj.ofRecord, h]
  · intro v h; simp [apply_update_fields, DBObj.ofRecord, h]
  · intro h; simp [apply_update_fields, DBObj.ofRecord, h]
  · intro v h; simp [apply_update_fields, DBObj.ofRecord, h]
  · intro h; simp [apply_update_fields, DBObj.ofRecord, h]
  · intro v h; simp [apply_update_fields, DBObj.ofRecord, h]
  · intro h; simp [apply_update_fields, DBObj.ofRecord, h]
  · intro v h; simp [apply_update_fields, DBObj.ofRecord, h]
  · intro h; simp [apply_update_fields, DBObj.ofRecord, h]
  · intro v h; simp [apply_update_fields, DBObj.ofRecord, h]
  · intro r2 h hne
    simp only [commitUpdate] at h
    rw [if_neg hne] at h
    split at h
    · cases h
      rfl
    · cases h
  · intro heq
    simp only [commitUpdate]
    rw [if_pos heq]
  · intro hdesc r2 h
    simp only [commitUpdate] at h
    by_cases heq : apply_update_fields (DBObj.ofRecord r) u = DBObj.ofRecord r
    · rw [if_pos heq] at h
      cases h
      have hod : (apply_update_fields (DBObj.ofRecord r) u).description = none := by
        simp [apply_update_fields, hdesc]
      rw [heq] at hod
      exact hod
    · rw [if_neg heq] at h
      split at h
      · cases h
        simp [apply_update_fields, DBObj.ofRecord, hdesc]
      · cases h
  · intro bc ios v s s' hok
    obtain ⟨rr, r2, hlk, hcm, hv, _, _, _⟩ := update_database_ok bc ios u now s v s' hok
    refine ⟨rr, r2, hlk, hcm, hv, ?_, ?_⟩
    · intro hne
      simp only [commitUpdate] at hcm
      rw [if_neg hne] at hcm
      split at hcm
      · cases hcm
        rw [hv]
        rfl
      · cases hcm
    · intro heq
      simp only [commitUpdate] at hcm
      rw [if_pos heq] at hcm
      cases hcm
      rw [hv]
      rfl

theorem partial_update_semantics_witness :
    (apply_update_fields
        (DBObj.ofRecord ⟨"i", "n", "s", "t", "c", some "d", .active, 1, 1⟩)
        ⟨none, none, none, some none, none⟩).name = some "n"
    ∧ (apply_update_fields
        (DBObj.ofRecord ⟨"i", "n", "s", "t", "c", some "d", .active, 1, 1⟩)
        ⟨none, none, none, some none, none⟩).description = none
    ∧ (⟨"i", "n", "s", "t", "c", none, .active, 1, 7⟩ : DBRecord).updated_at = 7
    ∧ commitUpdate ⟨"i", "n", "s", "t", "c", some "d", .active, 1, 1⟩
        ⟨none, none, none, none, none⟩ 7
      = some ⟨"i", "n", "s", "t", "c", some "d", .active, 1, 1⟩ :=
  ⟨(partial_update_semantics ⟨"i", "n", "s", "t", "c", some "d", .active, 1, 1⟩
      ⟨none, none, none, some none, none⟩ 7).1 rfl,
    (partial_update_semantics ⟨"i", "n", "s", "t", "c", some "d", .active, 1, 1⟩
      ⟨none, none, none, some none, none⟩ 7).2.2.2.2.2.2.2.1 none rfl,
    (partial_update_semantics ⟨"i", "n", "s", "t", "c", some "d", .active, 1, 1⟩
      ⟨none, none, none, some none, none⟩ 7).2.2.2.2.2.2.2.2.2.2.1
      ⟨"i", "n", "s", "t", "c", none, .active, 1, 7⟩ (by decide) (by decide),
    (partial_update_semantics ⟨"i", "n", "s", "t", "c", some "d", .active, 1, 1⟩
      ⟨none, none, none, none, none⟩ 7).2.2.2.2.2.2.2.2.2.2.2.1 (by decide)⟩

/-- C9: the connectivity probe never raises: every outcome is returned as a
structured `{success, message, latency_ms}` record; a failure message is
classified by substring matching into the timeout / authentication /
host-unreachable categories in that order, and an unmatched error passes
through as the raw error text. -/
theorem probe_structured_result (conn : DatabaseTestConnection)
    (outcome : ProbeOutcome) :
    (∀ l, outcome = .success l →
      test_database_connection conn outcome
        = ⟨true, "Connection successful to " ++ conn.«type» ++ " database", some l⟩)
    ∧ (∀ e l, outcome = .failure e l →
        (test_database_connection conn outcome).success = false
        ∧ (test_database_connection conn outcome).latency_ms = some l
        ∧ ((test_database_connection conn outcome).message
              = "Connection failed: Connection timeout (10s exceeded)"
            ∨ (test_database_connection conn outcome).message
              = "Connection failed: Authentication failed - check credentials"
            ∨ (test_database_connection conn outcome).message
              = "Connection failed: Cannot reach database host - check host and port"
            ∨ (test_database_connection conn outcome).message
              = "Connection failed: " ++ e)
        ∧ (strContains (strLower e) "timeout" = true →
            (test_database_connection conn outcome).message
              = "Connection failed: Connection timeout (10s exceeded)")
        ∧ (strContains (strLower e) "timeout" = false →
            (strContains (strLower e) "authentication"
              || strContains (strLower e) "password") = true →
            (test_database_connection conn outcome).message
              = "Connection failed: Authentication failed - check credentials")
        ∧ (strContains (strLower e) "timeout" = false →
            (strContains (strLower e) "authentication"
              || strContains (strLower e) "password") = false →
            (strContains (strLower e) "host"
              || strContains (strLower e) "connection refused") = true →
            (test_database_connection conn outcome).message
              = "Connection failed: Cannot reach database host - check host and port")
        ∧ (strContains (strLower e) "timeout" = false →
            (strContains (strLower e) "authentication"
              || strContains (strLower e) "password") = false →
            (strContains (strLower e) "host"
              || strContains (strLower e) "connection refused") = false →
            (test_database_connection conn outcome).message
              = "Connection failed: " ++ e)) := by
  constructor
  · intro l hout
    subst hout
    rfl
  · intro e l hout
    subst hout
    refine ⟨rfl, rfl, ?_, ?_, ?_, ?_, ?_⟩
    · simp only [test_database_connection]
      by_cases h1 : strContains (strLower e) "timeout"
      · rw [if_pos h1]
        left
        rfl
      · rw [if_neg h1]
        by_cases h2 : (strContains (strLower e) "authentication"
            || strContains (strLower e) "password") = true
        · rw [if_pos h2]
          right; left
          rfl
        · rw [if_neg h2]
          by_cases h3 : (strContains (strLower e) "host"
              || strContains (strLower e) "connection refused") = true
          · rw [if_pos h3]
            right; right; left
            rfl
          · rw [if_neg h3]
            right; right; right
            rfl
    · intro h1
      simp only [test_database_connection]
      rw [if_pos h1]
      rfl
    · intro h1 h2
      simp only [test_database_connection]
      rw [if_neg (by simp [h1]), if_pos h2]
      rfl
    · intro h1 h2 h3
      simp only [test_database_connection]
      rw [if_neg (by simp [h1]), if_neg (by simp [h2]), if_pos h3]
      rfl
    · intro h1 h2 h3
      simp only [test_database_connection]
      rw [if_neg (by simp [h1]), if_neg (by simp [h2]), if_neg (by simp [h3])]

theorem probe_structured_result_witness :
    (test_database_connection ⟨"postgres", "cs"⟩ (.failure "no route to Host xx" 5)).success
        = false
    ∧ (test_database_connection ⟨"postgres", "cs"⟩ (.failure "no route to Host xx" 5)).message
        = "Connection failed: Cannot reach database host - check host and port"
    ∧ (test_database_connection ⟨"postgres", "cs"⟩ (.success 3)).success = true :=
  ⟨((probe_structured_result ⟨"postgres", "cs"⟩ (.failure "no route to Host xx" 5)).2
      "no route to Host xx" 5 rfl).1,
    ((probe_structured_result ⟨"postgres", "cs"⟩ (.failure "no route to Host xx" 5)).2
      "no route to Host xx" 5 rfl).2.2.2.2.2.1 (by decide) (by decide) (by decide),
    by
      have := (probe_structured_result ⟨"postgres", "cs"⟩ (.success 3)).1 3 rfl
      rw [this]⟩

/-- C1: on every read-path response (list, single read, and the views returned
by create and update), the `connection_string` field equals the field-cipher
encryption of the plaintext stored in the corresponding record — never the
plaintext itself. The statement quantifies over cache-coherent states;
coherence holds for the empty cache and is preserved by every operation
(the later conjuncts), so it holds in every reachable state. -/
theorem read_paths_always_encrypted (bc : BlockCipher) (s : AppState)
    (h : CacheConsistent bc s) :
    (∀ r : DBRecord, (viewOf bc r).connection_string
        = encrypt_connection_string bc r.connection_string)
    ∧ (∀ skip limit views st s', get_databases bc skip limit s = .ok (views, st, s') →
        views = ((s.store.drop skip).take limit).map (viewOf bc)
        ∧ CacheConsistent bc s')
    ∧ (∀ ios v st s', get_database bc ios s = .ok (v, st, s') →
        (∃ r, get_database_by_id_or_slug ios s.store = some r ∧ v = viewOf bc r)
        ∧ CacheConsistent bc s')
    ∧ (∀ inp newId now v s', create_database bc inp newId now s = .ok (v, s') →
        (∃ r, r ∈ s'.store ∧ v = viewOf bc r
          ∧ r.connection_string = inp.connection_string)
        ∧ CacheConsistent bc s')
    ∧ (∀ ios u now v s', update_database bc ios u now s = .ok (v, s') →
        (∃ r2, r2 ∈ s'.store ∧ v = viewOf bc r2) ∧ CacheConsistent bc s')
    ∧ (∀ ios s', delete_database ios s = .ok s' → CacheConsistent bc s')
    ∧ (∀ store : List DBRecord, CacheConsistent bc ⟨store, []⟩) := by
  refine ⟨fun r => rfl, ?_, ?_, ?_, ?_, ?_, fun store => cacheConsistent_empty bc store⟩
  · intro skip limit views st s' hok
    obtain ⟨h1, _, h3⟩ := get_databases_ok bc skip limit s h views st s' hok
    exact ⟨h1, h3⟩
  · intro ios v st s' hok
    obtain ⟨h1, _, h3⟩ := get_database_ok bc ios s h v st s' hok
    exact ⟨h1, h3⟩
  · intro inp newId now v s' hok
    obtain ⟨r, hmem, hv, hcs, _, _, hcons⟩ := create_database_ok bc inp newId now s v s' hok
    exact ⟨⟨r, hmem, hv, hcs⟩, hcons⟩
  · intro ios u now v s' hok
    obtain ⟨r, r2, _, _, hv, hmem, _, hcons⟩ := update_database_ok bc ios u now s v s' hok
    exact ⟨⟨r2, hmem, hv⟩, hcons⟩
  · intro ios s' hok
    exact (delete_database_ok bc ios s s' hok).2

theorem read_paths_always_encrypted_witness :
    (viewOf idCipher ⟨"id1", "N", "n", "t", "secret1", none, .active, 1, 1⟩).connection_string
      = encrypt_connection_string idCipher "secret1"
    ∧ encrypt_connection_string idCipher "secret1" ≠ "secret1" :=
  ⟨(read_paths_always_encrypted idCipher ⟨[], []⟩ (cacheConsistent_empty idCipher [])).1
      ⟨"id1", "N", "n", "t", "secret1", none, .active, 1, 1⟩,
    by decide⟩

/-- C3: after any create, update or delete completes, no cache key matching
the registry namespace pattern `databases:*` survives (both `list:` and
`item:` keys are gone), so every subsequent list read takes the miss path —
recomputing from storage and reporting MISS — and every subsequent successful
item read likewise reports MISS with a value recomputed from storage. -/
theorem mutations_invalidate_registry_namespace (bc : BlockCipher) (s s' : AppState)
    (hmut : (∃ inp newId now v, create_database bc inp newId now s = .ok (v, s'))
      ∨ (∃ ios u now v, update_database bc ios u now s = .ok (v, s'))
      ∨ (∃ ios, delete_database ios s = .ok s')) :
    (∀ key v, (key, v) ∈ s'.cache → globMatch "databases:*" key = false)
    ∧ (∀ skip limit, List.lookup (cache_key_database_list skip limit) s'.cache = none)
    ∧ (∀ ios, List.lookup (cache_key_database ios) s'.cache = none)
    ∧ (∀ skip limit, get_databases bc skip limit s' = .ok (listMiss bc skip limit s'))
    ∧ (∀ skip limit, (listMiss bc skip limit s').2.1 = "MISS"
        ∧ (listMiss bc skip limit s').1
          = ((s'.store.drop skip).take limit).map (viewOf bc))
    ∧ (∀ ios v st s'', get_database bc ios s' = .ok (v, st, s'') →
        st = "MISS"
        ∧ ∃ r, get_database_by_id_or_slug ios s'.store = some r ∧ v = viewOf bc r) := by
  have hc : s'.cache = invalidate_database_cache s.cache := by
    rcases hmut with ⟨inp, newId, now, v, hok⟩ | ⟨ios, u, now, v, hok⟩ | ⟨ios, hok⟩
    · obtain ⟨r, _, _, _, _, hcc, _⟩ := create_database_ok bc inp newId now s v s' hok
      exact hcc
    · obtain ⟨r, r2, _, _, _, _, hcc, _⟩ := update_database_ok bc ios u now s v s' hok
      exact hcc
    · exact (delete_database_ok bc ios s s' hok).1
  have hlkl : ∀ skip limit, List.lookup (cache_key_database_list skip limit) s'.cache
      = none := by
    intro skip limit
    rw [hc]
    exact invalidate_lookup_list s.cache skip limit
  have hlki : ∀ ios, List.lookup (cache_key_database ios) s'.cache = none := by
    intro ios
    rw [hc]
    exact invalidate_lookup_item s.cache ios
  refine ⟨?_, hlkl, hlki, ?_, ?_, ?_⟩
  · intro key v hmem
    rw [hc] at hmem
    exact invalidate_no_registry_key s.cache (key, v) hmem
  · intro skip limit
    rw [get_databases, hlkl skip limit]
  · intro skip limit
    exact ⟨rfl, rfl⟩
  · intro ios v st s'' hok2
    rw [get_database, hlki ios] at hok2
    have hok3 : itemMiss bc ios s' = .ok (v, st, s'') := hok2
    rw [itemMiss] at hok3
    cases hlk : get_database_by_id_or_slug ios s'.store with
    | none =>
      rw [hlk] at hok3
      cases hok3
    | some r =>
      rw [hlk] at hok3
      cases hok3
      exact ⟨rfl, r, rfl, rfl⟩

theorem mutations_invalidate_registry_namespace_witness :
    get_databases idCipher 0 100
        (⟨[⟨"id1", "A", "a", "t", "c", none, .active, 5, 5⟩], []⟩ : AppState)
      = .ok (listMiss idCipher 0 100
          (⟨[⟨"id1", "A", "a", "t", "c", none, .active, 5, 5⟩], []⟩ : AppState)) :=
  (mutations_invalidate_registry_namespace idCipher
    ⟨[], [(cache_key_database_list 0 100, .list [])]⟩
    ⟨[⟨"id1", "A", "a", "t", "c", none, .active, 5, 5⟩], []⟩
    (Or.inl ⟨⟨"A", "t", "c", none, .active⟩, "id1", 5,
      viewOf idCipher ⟨"id1", "A", "a", "t", "c", none, .active, 5, 5⟩,
      rfl⟩)).2.2.2.1 0 100

/-- C10: a cached empty list is never served as a HIT: when the cache holds
the empty list under the list key, the endpoint falls through to the miss
path — it queries storage, re-caches, and reports MISS. At the raw layer,
`get_cache` treats falsy cached values (an absent key, or an empty string)
as misses. -/
theorem empty_list_read_is_miss (bc : BlockCipher) (skip limit : Nat) (s : AppState)
    (h : List.lookup (cache_key_database_list skip limit) s.cache
      = some (.list [])) :
    get_databases bc skip limit s
      = .ok (((s.store.drop skip).take limit).map (viewOf bc), "MISS",
          ⟨s.store, cacheSet s.cache (cache_key_database_list skip limit)
            (.list (((s.store.drop skip).take limit).map (viewOf bc)))⟩)
    ∧ (∀ (b : CacheBackend) (loads : String → Option CacheVal) (key : String),
        (b.get key = .ok none → get_cache b loads key = none)
        ∧ (b.get key = .ok (some "") → get_cache b loads key = none)) := by
  constructor
  · rw [get_databases, h]
    rfl
  · intro b loads key
    constructor
    · intro hget
      simp [get_cache, hget]
    · intro hget
      simp [get_cache, hget]

theorem empty_list_read_is_miss_witness :
    get_databases idCipher 0 100
        (⟨[⟨"id1", "A", "a", "t", "c", none, .active, 5, 5⟩],
          [(cache_key_database_list 0 100, .list [])]⟩ : AppState)
      = .ok ([viewOf idCipher ⟨"id1", "A", "a", "t", "c", none, .active, 5, 5⟩], "MISS",
          ⟨[⟨"id1", "A", "a", "t", "c", none, .active, 5, 5⟩],
            [(cache_key_database_list 0 100,
              .list [viewOf idCipher ⟨"id1", "A", "a", "t", "c", none, .active, 5, 5⟩])]⟩) :=
  (empty_list_read_is_miss idCipher 0 100
    ⟨[⟨"id1", "A", "a", "t", "c", none, .active, 5, 5⟩],
      [(cache_key_database_list 0 100, .list [])]⟩ (by decide)).1

/-- C6: `generate_backup_sql` emits the records ordered by `created_at`
ascending (a sorted permutation of the table), one upsert block per record;
each statement inserts all nine columns, conflicts on the primary key `id`,
and its conflict branch assigns exactly the seven mutable columns — never
`id` or `created_at`. -/
theorem backup_upsert_structure (db : List DBRecord) :
    List.Perm (sortByCreated db) db
    ∧ List.Pairwise (fun a b => a.created_at ≤ b.created_at) (sortByCreated db)
    ∧ generate_backup_sql db
      = (if sortByCreated db = [] then "-- No databases to backup\n"
         else String.intercalate "\n"
          (backupHeaderLines (sortByCreated db)
            ++ ((sortByCreated db).map (fun d => renderUpsert (upsertOf d))).flatten
            ++ backupFooterLines (sortByCreated db)))
    ∧ (∀ d : DBRecord, backupRecordLines d = renderUpsert (upsertOf d))
    ∧ (∀ d : DBRecord,
        (upsertOf d).insertCols = ["id", "name", "slug", "type", "connection_string",
          "description", "status", "created_at", "updated_at"]
        ∧ (upsertOf d).insertVals.length = 9
        ∧ (upsertOf d).conflictKey = "id"
        ∧ (upsertOf d).updateCols = ["name", "slug", "type", "connection_string",
          "description", "status", "updated_at"]
        ∧ "id" ∉ (upsertOf d).updateCols
        ∧ "created_at" ∉ (upsertOf d).updateCols) := by
  haveI : IsTotal DBRecord (fun a b => a.created_at ≤ b.created_at) :=
    ⟨fun a b => Nat.le_total a.created_at b.created_at⟩
  haveI : IsTrans DBRecord (fun a b => a.created_at ≤ b.created_at) :=
    ⟨fun _ _ _ hab hbc => Nat.le_trans hab hbc⟩
  refine ⟨List.perm_insertionSort _ db, List.sorted_insertionSort _ db, ?_, ?_, ?_⟩
  · have hfe : backupRecordLines = fun d => renderUpsert (upsertOf d) :=
      funext (fun d => rfl)
    rw [generate_backup_sql, hfe]
  · intro d
    rfl
  · intro d
    refine ⟨rfl, rfl, rfl, rfl, ?_, ?_⟩
    · intro hmem
      simp [upsertOf, UpsertStmt.updateCols] at hmem
    · intro hmem
      simp [upsertOf, UpsertStmt.updateCols] at hmem

theorem backup_upsert_structure_witness :
    (upsertOf ⟨"id1", "A", "a", "t", "c", none, .active, 5, 5⟩).updateCols
      = ["name", "slug", "type", "connection_string", "description", "status", "updated_at"]
    ∧ "id" ∉ (upsertOf ⟨"id1", "A", "a", "t", "c", none, .active, 5, 5⟩).updateCols
    ∧ "created_at" ∉ (upsertOf ⟨"id1", "A", "a", "t", "c", none, .active, 5, 5⟩).updateCols :=
  ⟨((backup_upsert_structure []).2.2.2.2
      ⟨"id1", "A", "a", "t", "c", none, .active, 5, 5⟩).2.2.2.1,
    ((backup_upsert_structure []).2.2.2.2
      ⟨"id1", "A", "a", "t", "c", none, .active, 5, 5⟩).2.2.2.2.1,
    ((backup_upsert_structure []).2.2.2.2
      ⟨"id1", "A", "a", "t", "c", none, .active, 5, 5⟩).2.2.2.2.2⟩

end AdminApi